import Mathlib

/-!
# Verification of the Arbiter analytics core

Shallow embedding of the Arbiter prediction-market analytics core:
the execution pricer (`calculateExecutionPrice`), the payoff and Kelly
calculators (`calculatePayoff`, `calculateKellyFraction`), the
cross-market comparator (`compareMarkets` with its binary search
`findMaxViableArbSize`), and the discrepancy engine
(`DiscrepancyEngine.detectDiscrepancies`).

JavaScript numbers are modelled as rationals (`ℚ`); in `ℚ` division by
zero yields 0, and every division in the embedded code is either guarded
by the source (`filledSize > 0 ? … : 0`) or reached only with a nonzero
denominator in the situations the theorems consider.  Purely
presentational string fields of the source (detail messages, risk-signal
strings) are omitted from the embedded result records; all numeric and
boolean fields are kept.
-/

namespace Arbiter

/-- Trade direction, `"BUY" | "SELL"` in the source. -/
inductive TradeSide where
  | BUY
  | SELL
deriving DecidableEq, Repr

/-- Market outcome, `"YES" | "NO"` in the source. -/
inductive Outcome where
  | YES
  | NO
deriving DecidableEq, Repr

/-- A single price level of an order book (`execution-types.ts`). -/
structure OrderBookLevel where
  price : ℚ
  size : ℚ
deriving DecidableEq, Repr

/-- An order book: bids sorted descending, asks sorted ascending
(`execution-types.ts`; the sort order is a producer-side precondition,
not re-checked by the core).  The `timestamp`, `tokenId` and `marketId`
fields are never read by the embedded functions and are omitted. -/
structure OrderBook where
  bids : List OrderBookLevel
  asks : List OrderBookLevel
deriving DecidableEq, Repr

/-- Input for simulating a trade (`execution-types.ts`). -/
structure TradeInput where
  side : TradeSide
  outcome : Outcome
  size : ℚ
deriving DecidableEq, Repr

/-- One entry of the per-level fill breakdown of an execution result. -/
structure Fill where
  price : ℚ
  size : ℚ
  cumulative : ℚ
deriving DecidableEq, Repr

/-- Result of simulating trade execution (`execution-types.ts`). -/
structure ExecutionResult where
  side : TradeSide
  outcome : Outcome
  requestedSize : ℚ
  filledSize : ℚ
  averagePrice : ℚ
  totalCost : ℚ
  bestPrice : ℚ
  worstPrice : ℚ
  slippageFromBest : ℚ
  slippagePercent : ℚ
  fills : List Fill
  partialFill : Bool
  remainingSize : ℚ
deriving DecidableEq, Repr

/-- The side of the book consumed by `calculateExecutionPrice`:
asks for a BUY, bids for a SELL (`execution-engine`, line 383). -/
def selectedLevels (orderBook : OrderBook) (side : TradeSide) : List OrderBookLevel :=
  match side with
  | .BUY => orderBook.asks
  | .SELL => orderBook.bids

/-- Mutable loop state of the level walk in `calculateExecutionPrice`
(lines 392-400 of the source: `remainingSize`, `totalCost`,
`filledSize`, `worstPrice`, `fills`). -/
structure WalkState where
  remainingSize : ℚ
  totalCost : ℚ
  filledSize : ℚ
  worstPrice : ℚ
  fills : List Fill
deriving DecidableEq, Repr

/-- The `for (const level of levels)` walk of `calculateExecutionPrice`
(lines 402-425): break once `remainingSize ≤ 0`, otherwise fill
`min(remainingSize, level.size)` at the level when that amount is
positive, accumulating cost, filled size, worst touched price and the
fill breakdown. -/
def walkLevels : List OrderBookLevel → WalkState → WalkState
  | [], s => s
  | level :: rest, s =>
    if s.remainingSize ≤ 0 then s
    else
      let fillAtLevel := min s.remainingSize level.size
      if 0 < fillAtLevel then
        let costAtLevel := fillAtLevel * level.price
        let newFilled := s.filledSize + fillAtLevel
        walkLevels rest
          { remainingSize := s.remainingSize - fillAtLevel
            totalCost := s.totalCost + costAtLevel
            filledSize := newFilled
            worstPrice := level.price
            fills := s.fills ++ [{ price := level.price, size := fillAtLevel, cumulative := newFilled }] }
      else
        walkLevels rest s

/-- `createEmptyResult` (lines 478-494): the well-formed zero-fill result
returned when the selected side has no liquidity. -/
def createEmptyResult (input : TradeInput) : ExecutionResult :=
  { side := input.side
    outcome := input.outcome
    requestedSize := input.size
    filledSize := 0
    averagePrice := 0
    totalCost := 0
    bestPrice := 0
    worstPrice := 0
    slippageFromBest := 0
    slippagePercent := 0
    fills := []
    partialFill := true
    remainingSize := input.size }

/-- `calculateExecutionPrice` (lines 371-473): walk the selected side of
the book level-by-level and report weighted-average price, slippage,
fills and partial-fill status. -/
def calculateExecutionPrice (orderBook : OrderBook) (input : TradeInput) : ExecutionResult :=
  match selectedLevels orderBook input.side with
  | [] => createEmptyResult input
  | first :: restLevels =>
    let bestPrice := first.price
    let s := walkLevels (first :: restLevels)
      { remainingSize := input.size
        totalCost := 0
        filledSize := 0
        worstPrice := bestPrice
        fills := [] }
    let averagePrice := if 0 < s.filledSize then s.totalCost / s.filledSize else 0
    let slippageFromBest :=
      match input.side with
      | .BUY => averagePrice - bestPrice
      | .SELL => bestPrice - averagePrice
    let slippagePercent := if 0 < bestPrice then slippageFromBest / bestPrice * 100 else 0
    { side := input.side
      outcome := input.outcome
      requestedSize := input.size
      filledSize := s.filledSize
      averagePrice := averagePrice
      totalCost := s.totalCost
      bestPrice := bestPrice
      worstPrice := s.worstPrice
      slippageFromBest := slippageFromBest
      slippagePercent := slippagePercent
      fills := s.fills
      partialFill := decide (0 < s.remainingSize)
      remainingSize := s.remainingSize }

/-- Resolution payoff analysis record (`execution-types.ts`). -/
structure PayoffResult where
  side : TradeSide
  outcome : Outcome
  contracts : ℚ
  entryPrice : ℚ
  totalCost : ℚ
  pnlIfYes : ℚ
  returnIfYes : ℚ
  pnlIfNo : ℚ
  returnIfNo : ℚ
  maxGain : ℚ
  maxLoss : ℚ
  capitalAtRisk : ℚ
  impliedProbability : ℚ
deriving DecidableEq, Repr

/-- `calculateResolutionPnL` (payoff calculator, lines 522-559): the
four-case sign table on `(side, outcome)` giving P&L under a YES and
under a NO resolution. -/
def calculateResolutionPnL (side : TradeSide) (outcome : Outcome) (contracts : ℚ)
    (price : ℚ) : ℚ × ℚ :=
  match side, outcome with
  | .BUY, .YES => ((1 - price) * contracts, -price * contracts)
  | .BUY, .NO => (-price * contracts, (1 - price) * contracts)
  | .SELL, .YES => ((price - 1) * contracts, price * contracts)
  | .SELL, .NO => (price * contracts, (price - 1) * contracts)

/-- `createZeroPayoff` (lines 564-580): the all-zero payoff returned for
an unfilled order, echoing side and outcome. -/
def createZeroPayoff (execution : ExecutionResult) : PayoffResult :=
  { side := execution.side
    outcome := execution.outcome
    contracts := 0
    entryPrice := 0
    totalCost := 0
    pnlIfYes := 0
    returnIfYes := 0
    pnlIfNo := 0
    returnIfNo := 0
    maxGain := 0
    maxLoss := 0
    capitalAtRisk := 0
    impliedProbability := 0 }

/-- `calculatePayoff` (lines 454-495): convert an execution result into
resolution P&L, return percentages and risk bounds. -/
def calculatePayoff (execution : ExecutionResult) : PayoffResult :=
  if execution.filledSize = 0 then createZeroPayoff execution
  else
    let pnl := calculateResolutionPnL execution.side execution.outcome
      execution.filledSize execution.averagePrice
    let pnlIfYes := pnl.1
    let pnlIfNo := pnl.2
    let capitalDeployed := |execution.totalCost|
    let returnIfYes := if 0 < capitalDeployed then pnlIfYes / capitalDeployed * 100 else 0
    let returnIfNo := if 0 < capitalDeployed then pnlIfNo / capitalDeployed * 100 else 0
    let maxGain := max pnlIfYes pnlIfNo
    let maxLoss := min pnlIfYes pnlIfNo
    { side := execution.side
      outcome := execution.outcome
      contracts := execution.filledSize
      entryPrice := execution.averagePrice
      totalCost := execution.totalCost
      pnlIfYes := pnlIfYes
      returnIfYes := returnIfYes
      pnlIfNo := pnlIfNo
      returnIfNo := returnIfNo
      maxGain := maxGain
      maxLoss := maxLoss
      capitalAtRisk := |maxLoss|
      impliedProbability := execution.averagePrice }

/-- Result of `calculateKellyFraction`: recommended stake fraction and
raw expected edge per dollar. -/
structure KellyResult where
  fraction : ℚ
  edge : ℚ
deriving DecidableEq, Repr

/-- `calculateKellyFraction` (lines 652-703): map `(side, outcome)` to
win/lose probabilities and payoffs, compute `b = payoffIfWin/lossIfLose`
and `kelly = (winProb·b − loseProb)/b`, clamp to ≥ 0, and report the raw
edge `winProb·payoffIfWin − loseProb·lossIfLose`. -/
def calculateKellyFraction (trueProb marketPrice : ℚ) (side : TradeSide)
    (outcome : Outcome) : KellyResult :=
  let params : ℚ × ℚ × ℚ × ℚ :=
    match side, outcome with
    | .BUY, .YES => (trueProb, 1 - trueProb, 1 - marketPrice, marketPrice)
    | .BUY, .NO => (1 - trueProb, trueProb, 1 - marketPrice, marketPrice)
    | .SELL, .YES => (1 - trueProb, trueProb, marketPrice, 1 - marketPrice)
    | .SELL, .NO => (trueProb, 1 - trueProb, marketPrice, 1 - marketPrice)
  let winProb := params.1
  let loseProb := params.2.1
  let payoffIfWin := params.2.2.1
  let lossIfLose := params.2.2.2
  let b := payoffIfWin / lossIfLose
  let kelly := (winProb * b - loseProb) / b
  let edge := winProb * payoffIfWin - loseProb * lossIfLose
  { fraction := max 0 kelly, edge := edge }

/-- Spread and depth analysis for a single order book
(`execution-types.ts`). -/
structure OrderBookAnalysis where
  bestBid : ℚ
  bestAsk : ℚ
  spread : ℚ
  spreadPercent : ℚ
  midpoint : ℚ
  bidDepthTotal : ℚ
  askDepthTotal : ℚ
  depthImbalance : ℚ
  sizeToMoveBid1Percent : ℚ
  sizeToMoveAsk1Percent : ℚ
  levelCount : ℕ
  averageLevelSize : ℚ
deriving DecidableEq, Repr

/-- Accumulation loop of `calculateSizeToMovePrice` (lines 595-629):
sum level sizes until a level's price reaches the displaced target
(`≥ target` walking up the asks, `≤ target` walking down the bids);
the triggering level is excluded.  `up = true` models
`direction === "up"`. -/
def sizeToMoveLoop (targetPrice : ℚ) (up : Bool) : List OrderBookLevel → ℚ → ℚ
  | [], sizeNeeded => sizeNeeded
  | level :: rest, sizeNeeded =>
    if (if up then targetPrice ≤ level.price else level.price ≤ targetPrice) then sizeNeeded
    else sizeToMoveLoop targetPrice up rest (sizeNeeded + level.size)

/-- `calculateSizeToMovePrice` (lines 595-629): contracts needed to move
the touch price by `percentMove` in the given direction. -/
def calculateSizeToMovePrice (levels : List OrderBookLevel) (percentMove : ℚ)
    (up : Bool) : ℚ :=
  match levels with
  | [] => 0
  | first :: _ =>
    let startPrice := first.price
    let targetPrice :=
      if up then startPrice * (1 + percentMove) else startPrice * (1 - percentMove)
    sizeToMoveLoop targetPrice up levels 0

/-- `analyzeOrderBook` (lines 504-547): spread, depth, imbalance and
price-impact metrics of a raw book. -/
def analyzeOrderBook (orderBook : OrderBook) : OrderBookAnalysis :=
  let bids := orderBook.bids
  let asks := orderBook.asks
  let bestBid := (bids.head?.map OrderBookLevel.price).getD 0
  let bestAsk := (asks.head?.map OrderBookLevel.price).getD 1
  let spread := bestAsk - bestBid
  let midpoint := (bestBid + bestAsk) / 2
  let bidDepthTotal := (bids.map OrderBookLevel.size).sum
  let askDepthTotal := (asks.map OrderBookLevel.size).sum
  let totalDepth := bidDepthTotal + askDepthTotal
  let depthImbalance := if 0 < totalDepth then (bidDepthTotal - askDepthTotal) / totalDepth else 0
  let levelCount := bids.length + asks.length
  { bestBid := bestBid
    bestAsk := bestAsk
    spread := spread
    spreadPercent := if 0 < midpoint then spread / midpoint * 100 else 0
    midpoint := midpoint
    bidDepthTotal := bidDepthTotal
    askDepthTotal := askDepthTotal
    depthImbalance := depthImbalance
    sizeToMoveBid1Percent := calculateSizeToMovePrice bids (1/100) false
    sizeToMoveAsk1Percent := calculateSizeToMovePrice asks (1/100) true
    levelCount := levelCount
    averageLevelSize := totalDepth / max (levelCount : ℚ) 1 }

/-- Order books for both outcomes of one binary market
(`execution-types.ts`; the `fetchedAt` timestamp is never read by the
embedded functions and is omitted). -/
structure MarketOrderBooks where
  marketId : String
  question : String
  yes : OrderBook
  no : OrderBook
deriving DecidableEq, Repr

/-- Outcome of `detectApparentArbitrage` (arbitrage analyzer,
lines 145-193); the presentational `arbitrageDetails` string is
omitted. -/
structure ArbitrageCheck where
  hasArbitrage : Bool
  arbitrageEdge : ℚ
deriving DecidableEq, Repr

/-- `detectApparentArbitrage` (lines 145-193): single-market YES+NO < 0.98
is flagged as apparent arbitrage; a cross-market price difference above
0.05 is reported as a non-arbitrage inefficiency with the larger
difference as edge. -/
def detectApparentArbitrage (execAYes execANo execBYes execBNo : ExecutionResult) :
    ArbitrageCheck :=
  let sumA := execAYes.averagePrice + execANo.averagePrice
  let sumB := execBYes.averagePrice + execBNo.averagePrice
  if sumA < 98/100 then
    { hasArbitrage := true, arbitrageEdge := 1 - sumA }
  else if sumB < 98/100 then
    { hasArbitrage := true, arbitrageEdge := 1 - sumB }
  else
    let yesDiff := |execAYes.averagePrice - execBYes.averagePrice|
    let noDiff := |execANo.averagePrice - execBNo.averagePrice|
    if 5/100 < yesDiff ∨ 5/100 < noDiff then
      { hasArbitrage := false, arbitrageEdge := max yesDiff noDiff }
    else
      { hasArbitrage := false, arbitrageEdge := 0 }

/-- `checkDominanceViolations` (lines 202-248) reduced to its boolean
verdict (the explanatory detail string is omitted): violation when a
market's YES+NO execution sum exceeds 1.05 or any of the four execution
prices falls outside `[0,1]`. -/
def checkDominanceViolations (execAYes execANo execBYes execBNo : ExecutionResult) : Bool :=
  let sumA := execAYes.averagePrice + execANo.averagePrice
  let sumB := execBYes.averagePrice + execBNo.averagePrice
  if 105/100 < sumA then true
  else if 105/100 < sumB then true
  else
    [execAYes.averagePrice, execANo.averagePrice,
      execBYes.averagePrice, execBNo.averagePrice].any
      (fun price => decide (price < 0 ∨ 1 < price))

/-- The `while (high - low > 1)` binary-search loop of
`findMaxViableArbSize` (lines 264-285): probe `mid = ⌊(low+high)/2⌋`,
record `mid` and move `low` up when `initialEdge·100` minus the two
YES-leg slippage percents at size `mid` is still positive, otherwise
move `high` down. -/
def arbSearchLoop (marketA marketB : MarketOrderBooks) (initialEdge : ℚ)
    (low high maxSize : ℕ) : ℕ :=
  if _h : 1 < high - low then
    let mid := (low + high) / 2
    let execAYes := calculateExecutionPrice marketA.yes ⟨.BUY, .YES, (mid : ℚ)⟩
    let execBYes := calculateExecutionPrice marketB.yes ⟨.BUY, .YES, (mid : ℚ)⟩
    let totalSlippage := execAYes.slippagePercent + execBYes.slippagePercent
    let edgeRemaining := initialEdge * 100 - totalSlippage
    if 0 < edgeRemaining then
      arbSearchLoop marketA marketB initialEdge mid high mid
    else
      arbSearchLoop marketA marketB initialEdge low mid maxSize
  else
    maxSize
termination_by high - low
decreasing_by
  · omega
  · omega

/-- `findMaxViableArbSize` (lines 256-288): binary search on `[0,10000]`
for a size at which slippage has not yet consumed the given initial
edge; 0 when no edge is supplied. -/
def findMaxViableArbSize (marketA marketB : MarketOrderBooks) (initialEdge : ℚ) : ℕ :=
  if initialEdge ≤ 0 then 0
  else arbSearchLoop marketA marketB initialEdge 0 10000 0

/-- Per-market execution summary inside a comparison result
(`execution-types.ts`). -/
structure MarketSummary where
  marketId : String
  question : String
  executionPriceYes : ℚ
  executionPriceNo : ℚ
  spreadWidth : ℚ
  depthAtSize : ℚ
deriving DecidableEq, Repr

/-- Result of `compareMarkets` (`execution-types.ts`); the
presentational `dominanceDetails` and `riskSignals` strings are
omitted, all numeric and boolean fields are kept. -/
structure MarketComparisonResult where
  marketA : MarketSummary
  marketB : MarketSummary
  priceDifferenceYes : ℚ
  priceDifferenceNo : ℚ
  apparentArbitrage : Bool
  arbitrageEdge : ℚ
  maxViableSize : ℕ
  slippageAtSize : ℚ
  dominanceViolation : Bool
deriving DecidableEq, Repr

/-- `compareMarkets` (arbitrage analyzer, lines 35-133): price a BUY of
`tradeSize` on all four books, detect apparent arbitrage and dominance
violations, and bound the viable size by binary search (seeded with
`|arbitrageEdge|` only when arbitrage was flagged, otherwise 0). -/
def compareMarkets (marketA marketB : MarketOrderBooks) (tradeSize : ℚ) :
    MarketComparisonResult :=
  let analysisAYes := analyzeOrderBook marketA.yes
  let analysisBYes := analyzeOrderBook marketB.yes
  let execAYes := calculateExecutionPrice marketA.yes ⟨.BUY, .YES, tradeSize⟩
  let execANo := calculateExecutionPrice marketA.no ⟨.BUY, .NO, tradeSize⟩
  let execBYes := calculateExecutionPrice marketB.yes ⟨.BUY, .YES, tradeSize⟩
  let execBNo := calculateExecutionPrice marketB.no ⟨.BUY, .NO, tradeSize⟩
  let priceDifferenceYes := execAYes.averagePrice - execBYes.averagePrice
  let priceDifferenceNo := execANo.averagePrice - execBNo.averagePrice
  let arb := detectApparentArbitrage execAYes execANo execBYes execBNo
  let dominance := checkDominanceViolations execAYes execANo execBYes execBNo
  let maxViableSize := findMaxViableArbSize marketA marketB
    (if arb.hasArbitrage then |arb.arbitrageEdge| else 0)
  let totalSlippage := execAYes.slippagePercent + execANo.slippagePercent +
    execBYes.slippagePercent + execBNo.slippagePercent
  { marketA :=
      { marketId := marketA.marketId
        question := marketA.question
        executionPriceYes := execAYes.averagePrice
        executionPriceNo := execANo.averagePrice
        spreadWidth := analysisAYes.spread
        depthAtSize := min execAYes.filledSize execANo.filledSize }
    marketB :=
      { marketId := marketB.marketId
        question := marketB.question
        executionPriceYes := execBYes.averagePrice
        executionPriceNo := execBNo.averagePrice
        spreadWidth := analysisBYes.spread
        depthAtSize := min execBYes.filledSize execBNo.filledSize }
    priceDifferenceYes := priceDifferenceYes
    priceDifferenceNo := priceDifferenceNo
    apparentArbitrage := arb.hasArbitrage
    arbitrageEdge := arb.arbitrageEdge
    maxViableSize := maxViableSize
    slippageAtSize := totalSlippage
    dominanceViolation := dominance }

/-- The viability predicate of the C7 claim at a given integer size:
the arbitrage edge (×100, in percent) exceeds the sum of the two
YES-leg slippage percentages at that size. -/
def viableEdgeAt (marketA marketB : MarketOrderBooks) (edge : ℚ) (size : ℕ) : Prop :=
  0 < edge * 100 -
    ((calculateExecutionPrice marketA.yes ⟨.BUY, .YES, (size : ℚ)⟩).slippagePercent +
      (calculateExecutionPrice marketB.yes ⟨.BUY, .YES, (size : ℚ)⟩).slippagePercent)

/-- The arbitrage check performed inside `compareMarkets` on the four
execution results at the requested trade size. -/
def comparisonArb (marketA marketB : MarketOrderBooks) (tradeSize : ℚ) : ArbitrageCheck :=
  detectApparentArbitrage
    (calculateExecutionPrice marketA.yes ⟨.BUY, .YES, tradeSize⟩)
    (calculateExecutionPrice marketA.no ⟨.BUY, .NO, tradeSize⟩)
    (calculateExecutionPrice marketB.yes ⟨.BUY, .YES, tradeSize⟩)
    (calculateExecutionPrice marketB.no ⟨.BUY, .NO, tradeSize⟩)

/-- Venue identifier (`types.ts` `Platform` enum). -/
inductive Platform where
  | POLYMARKET
  | KALSHI
  | PREDICTIT
  | METACULUS
deriving DecidableEq, Repr

/-- Cross-venue canonical market record (`types.ts`
`NormalizedMarketSchema`); the `description`, `endDate` and
`lastUpdated` fields are never read by the discrepancy engine and are
omitted. -/
structure NormalizedMarket where
  externalId : String
  platform : Platform
  question : String
  category : String
  yesProbability : ℚ
  noProbability : ℚ
  volume : Option ℚ
  liquidity : Option ℚ
deriving DecidableEq, Repr

/-- Per-platform quote summary inside a `DiscrepancyResult`
(`types.ts`). -/
structure MarketQuote where
  platform : Platform
  yesProbability : ℚ
  volume : Option ℚ
  liquidity : Option ℚ
deriving DecidableEq, Repr

/-- Discrepancy detection result (`types.ts`), parameterised by the
news-correlation record type of the external news collaborator. -/
structure DiscrepancyResult (News : Type) where
  eventSlug : String
  eventTitle : String
  markets : List MarketQuote
  maxSpread : ℚ
  spreadPercent : ℚ
  confidence : ℚ
  likelyDrivers : List News

/-- A group of markets matched to the same question slug
(`discrepancy.ts` `MarketGroup`). -/
structure MarketGroup where
  eventSlug : String
  eventTitle : String
  markets : List NormalizedMarket
deriving DecidableEq, Repr

/-- `MIN_SPREAD_THRESHOLD` (3% minimum spread). -/
def MIN_SPREAD_THRESHOLD : ℚ := 3/100

/-- `HIGH_CONFIDENCE_THRESHOLD` (5% for high confidence). -/
def HIGH_CONFIDENCE_THRESHOLD : ℚ := 5/100

/-- `generateSlug` (discrepancy engine, lines 62-72): lowercase, strip
characters outside `[a-z0-9\s]`, split on spaces, keep words longer
than 3 characters, sort them lexicographically, join with `-`, truncate
to 100 characters. -/
def generateSlug (question : String) : String :=
  let cleaned := (question.toLower.toList.filter
    (fun c => (decide ('a' ≤ c) && decide (c ≤ 'z')) ||
      (decide ('0' ≤ c) && decide (c ≤ '9')) || c.isWhitespace)).asString
  let words := (cleaned.splitOn " ").filter (fun w => 3 < w.length)
  let sortedWords := words.mergeSort (fun a b => decide (a ≤ b))
  (String.intercalate "-" sortedWords).take 100

/-- One step of the grouping `Map` of `groupSimilarMarkets`
(lines 39-57): JavaScript `Map` iteration preserves first-insertion
order of keys, so the map is modelled as an association list; a market
is appended to the group with its slug, or a fresh group (titled by the
market's question) is created at the end. -/
def addToGroups (slug : String) (market : NormalizedMarket) :
    List MarketGroup → List MarketGroup
  | [] => [{ eventSlug := slug, eventTitle := market.question, markets := [market] }]
  | group :: rest =>
    if group.eventSlug = slug then
      { group with markets := group.markets ++ [market] } :: rest
    else
      group :: addToGroups slug market rest

/-- `groupSimilarMarkets` (lines 39-57): group markets by question slug
and keep only groups with more than one market. -/
def groupSimilarMarkets (markets : List NormalizedMarket) : List MarketGroup :=
  (markets.foldl (fun groups m => addToGroups (generateSlug m.question) m groups) []).filter
    (fun g => 1 < g.markets.length)

/-- `Math.min(...xs)` over a list of prices; the callers in the
discrepancy engine only apply it to non-empty lists (groups of at least
two markets), so the JavaScript empty-spread value `Infinity` never
arises and the empty case is given an arbitrary value 0. -/
def listMin : List ℚ → ℚ
  | [] => 0
  | x :: xs => xs.foldl min x

/-- `Math.max(...xs)` over a list of prices; see `listMin` for the
empty case. -/
def listMax : List ℚ → ℚ
  | [] => 0
  | x :: xs => xs.foldl max x

/-- `calculateConfidence` (lines 116-152): additive confidence score
from spread size, liquidity coverage and volume, capped at 1. -/
def calculateConfidence (markets : List NormalizedMarket) (spread : ℚ) : ℚ :=
  let base : ℚ :=
    if HIGH_CONFIDENCE_THRESHOLD ≤ spread then 2/5
    else if MIN_SPREAD_THRESHOLD ≤ spread then 1/5
    else 0
  let marketsWithLiquidity := markets.filter
    (fun m => match m.liquidity with | some v => decide (0 < v) | none => false)
  let withLiquidityBonus :=
    if marketsWithLiquidity.length = markets.length then
      let stepped := base + 1/5
      let avgLiquidity := (marketsWithLiquidity.map (fun m => m.liquidity.getD 0)).sum /
        (marketsWithLiquidity.length : ℚ)
      if 100000 < avgLiquidity then stepped + 1/5
      else if 10000 < avgLiquidity then stepped + 1/10
      else stepped
    else base
  let marketsWithVolume := markets.filter
    (fun m => match m.volume with | some v => decide (0 < v) | none => false)
  let withVolumeBonus :=
    if 0 < marketsWithVolume.length then
      let avgVolume := (marketsWithVolume.map (fun m => m.volume.getD 0)).sum /
        (marketsWithVolume.length : ℚ)
      if 1000000 < avgVolume then withLiquidityBonus + 1/5
      else if 100000 < avgVolume then withLiquidityBonus + 1/10
      else withLiquidityBonus
    else withLiquidityBonus
  min 1 withVolumeBonus

/-- `analyzeGroup` (lines 77-110): spread between the extreme YES
probabilities of a group; `none` below the minimum spread threshold.
The external news collaborator (`newsService.searchNews`, awaited in
the source) is passed in as the pure function `news`. -/
def analyzeGroup {News : Type} (news : String → List News) (group : MarketGroup) :
    Option (DiscrepancyResult News) :=
  let yesPrices := group.markets.map NormalizedMarket.yesProbability
  let minYes := listMin yesPrices
  let maxYes := listMax yesPrices
  let spread := maxYes - minYes
  if spread < MIN_SPREAD_THRESHOLD then none
  else
    some
      { eventSlug := group.eventSlug
        eventTitle := group.eventTitle
        markets := group.markets.map (fun m =>
          { platform := m.platform
            yesProbability := m.yesProbability
            volume := m.volume
            liquidity := m.liquidity })
        maxSpread := spread
        spreadPercent := spread / ((maxYes + minYes) / 2) * 100
        confidence := calculateConfidence group.markets spread
        likelyDrivers := (news group.eventTitle).take 3 }

/-- `detectDiscrepancies` (lines 17-34): analyze every group of at
least two matched markets, keep results whose spread is at least the
minimum threshold, and sort descending by `maxSpread` (JavaScript
`Array.sort` is a stable sort, modelled by `List.mergeSort`). -/
def detectDiscrepancies {News : Type} (news : String → List News)
    (markets : List NormalizedMarket) : List (DiscrepancyResult News) :=
  let groups := groupSimilarMarkets markets
  let discrepancies := groups.filterMap (fun group =>
    if group.markets.length < 2 then none
    else
      match analyzeGroup news group with
      | none => none
      | some analysis =>
        if MIN_SPREAD_THRESHOLD ≤ analysis.maxSpread then some analysis else none)
  discrepancies.mergeSort (fun a b => decide (b.maxSpread ≤ a.maxSpread))

/-- The cumulative size recorded by the last fill, 0 when there are no
fills. -/
def lastCumulative (fills : List Fill) : ℚ :=
  ((fills.getLast?).map Fill.cumulative).getD 0

/-- The non-empty-side branch of `calculateExecutionPrice`, factored out
so the theorems below can name the walk result; `calculateExecutionPrice`
reduces to it whenever the selected side is `first :: rest` (see
`calculateExecutionPrice_cons`). -/
def mkExecResult (input : TradeInput) (first : OrderBookLevel)
    (rest : List OrderBookLevel) : ExecutionResult :=
  let bestPrice := first.price
  let s := walkLevels (first :: rest)
    { remainingSize := input.size
      totalCost := 0
      filledSize := 0
      worstPrice := bestPrice
      fills := [] }
  let averagePrice := if 0 < s.filledSize then s.totalCost / s.filledSize else 0
  let slippageFromBest :=
    match input.side with
    | .BUY => averagePrice - bestPrice
    | .SELL => bestPrice - averagePrice
  let slippagePercent := if 0 < bestPrice then slippageFromBest / bestPrice * 100 else 0
  { side := input.side
    outcome := input.outcome
    requestedSize := input.size
    filledSize := s.filledSize
    averagePrice := averagePrice
    totalCost := s.totalCost
    bestPrice := bestPrice
    worstPrice := s.worstPrice
    slippageFromBest := slippageFromBest
    slippagePercent := slippagePercent
    fills := s.fills
    partialFill := decide (0 < s.remainingSize)
    remainingSize := s.remainingSize }

/-- The walk performed by the non-empty branch of
`calculateExecutionPrice`, starting from the initial loop state
(`remainingSize = input.size`, zero cost and fill, `worstPrice`
initialised to the best price, no fills). -/
def execWalk (input : TradeInput) (first : OrderBookLevel)
    (rest : List OrderBookLevel) : WalkState :=
  walkLevels (first :: rest)
    { remainingSize := input.size
      totalCost := 0
      filledSize := 0
      worstPrice := first.price
      fills := [] }

/-! ## Lemmas about the level walk -/

/-- The walk is a no-op once the remaining size is exhausted. -/
theorem walkLevels_of_done (ls : List OrderBookLevel) (s : WalkState)
    (h : s.remainingSize ≤ 0) : walkLevels ls s = s := by
  cases ls with
  | nil => rfl
  | cons l rest => simp [walkLevels, h]

/-- The remaining size never becomes negative. -/
theorem walkLevels_remaining_nonneg (ls : List OrderBookLevel) (s : WalkState)
    (h : 0 ≤ s.remainingSize) : 0 ≤ (walkLevels ls s).remainingSize := by
  induction ls generalizing s with
  | nil => simpa [walkLevels] using h
  | cons l rest ih =>
    by_cases hle : s.remainingSize ≤ 0
    · simpa [walkLevels, hle] using h
    · simp only [walkLevels, if_neg hle]
      split_ifs with hfill
      · exact ih _ (by simp only [WalkState.remainingSize]; exact sub_nonneg.mpr (min_le_left s.remainingSize l.size))
      · exact ih _ h

/-- The walk conserves `remainingSize + filledSize`. -/
theorem walkLevels_conserve (ls : List OrderBookLevel) (s : WalkState) :
    (walkLevels ls s).remainingSize + (walkLevels ls s).filledSize =
      s.remainingSize + s.filledSize := by
  induction ls generalizing s with
  | nil => rfl
  | cons l rest ih =>
    by_cases hle : s.remainingSize ≤ 0
    · simp [walkLevels, hle]
    · simp only [walkLevels, if_neg hle]
      split_ifs with hfill
      · rw [ih]; simp only [WalkState.remainingSize, WalkState.filledSize]; ring
      · exact ih s

/-- When every level has positive size and the book is at least as deep
as the remaining size, the walk exhausts the order. -/
theorem walkLevels_remaining_nonpos_of_depth (ls : List OrderBookLevel) (s : WalkState)
    (hsz : ∀ l ∈ ls, 0 < l.size)
    (h : s.remainingSize ≤ (ls.map OrderBookLevel.size).sum) :
    (walkLevels ls s).remainingSize ≤ 0 := by
  induction ls generalizing s with
  | nil => simpa [walkLevels] using h
  | cons l rest ih =>
    by_cases hle : s.remainingSize ≤ 0
    · simpa [walkLevels_of_done _ _ hle] using hle
    · push_neg at hle
      have hl : 0 < l.size := hsz l (by simp)
      have hfill : 0 < min s.remainingSize l.size := lt_min hle hl
      simp only [walkLevels, if_neg (not_le.mpr hle), if_pos hfill]
      by_cases hcase : s.remainingSize ≤ l.size
      · have hz : s.remainingSize - min s.remainingSize l.size = 0 := by
          rw [min_eq_left hcase]; ring
        rw [walkLevels_of_done _ _ (by simp [hz])]
        simp [hz]
      · push_neg at hcase
        apply ih
        · exact fun l' hl' => hsz l' (List.mem_cons_of_mem _ hl')
        · have : min s.remainingSize l.size = l.size := min_eq_right hcase.le
          simp only [this]
          have hsum : (List.map OrderBookLevel.size (l :: rest)).sum =
              l.size + (List.map OrderBookLevel.size rest).sum := by simp
          rw [hsum] at h
          linarith

/-- The filled size never decreases along the walk. -/
theorem walkLevels_filled_mono (ls : List OrderBookLevel) (s : WalkState) :
    s.filledSize ≤ (walkLevels ls s).filledSize := by
  induction ls generalizing s with
  | nil => exact le_refl _
  | cons l rest ih =>
    by_cases hle : s.remainingSize ≤ 0
    · simp [walkLevels, hle]
    · simp only [walkLevels, if_neg hle]
      split_ifs with hfill
      · calc s.filledSize ≤ s.filledSize + min s.remainingSize l.size := by linarith
          _ ≤ _ := by exact ih _
      · exact ih s

/-- A walk over a non-empty list with positive head size and positive
remaining size strictly increases the filled size. -/
theorem walkLevels_filled_pos (l : OrderBookLevel) (rest : List OrderBookLevel)
    (s : WalkState) (hrem : 0 < s.remainingSize) (hl : 0 < l.size) :
    s.filledSize < (walkLevels (l :: rest) s).filledSize := by
  have hfill : 0 < min s.remainingSize l.size := lt_min hrem hl
  simp only [walkLevels, if_neg (not_le.mpr hrem), if_pos hfill]
  calc s.filledSize < s.filledSize + min s.remainingSize l.size := by linarith
    _ ≤ _ := walkLevels_filled_mono rest _

/-- Upper cost bound: if every level price is at most `hi`, the total
cost stays at most `hi` times the filled size. -/
theorem walkLevels_cost_le (hi : ℚ) (ls : List OrderBookLevel) (s : WalkState)
    (hls : ∀ l ∈ ls, l.price ≤ hi)
    (h0 : 0 ≤ s.filledSize)
    (hc : s.totalCost ≤ hi * s.filledSize) :
    0 ≤ (walkLevels ls s).filledSize ∧
      (walkLevels ls s).totalCost ≤ hi * (walkLevels ls s).filledSize := by
  induction ls generalizing s with
  | nil => exact ⟨h0, hc⟩
  | cons l rest ih =>
    by_cases hle : s.remainingSize ≤ 0
    · rw [walkLevels_of_done _ _ hle]; exact ⟨h0, hc⟩
    · simp only [walkLevels, if_neg hle]
      split_ifs with hfill
      · apply ih
        · exact fun l' hl' => hls l' (List.mem_cons_of_mem _ hl')
        · simpa using add_nonneg h0 hfill.le
        · have hp : l.price ≤ hi := hls l (by simp)
          have : min s.remainingSize l.size * l.price ≤ min s.remainingSize l.size * hi :=
            mul_le_mul_of_nonneg_left hp hfill.le
          simp only [WalkState.totalCost, WalkState.filledSize]
          nlinarith
      · exact ih s (fun l' hl' => hls l' (List.mem_cons_of_mem _ hl')) h0 hc

/-- Lower cost bound: if every level price is at least `lo`, the total
cost stays at least `lo` times the filled size. -/
theorem walkLevels_cost_ge (lo : ℚ) (ls : List OrderBookLevel) (s : WalkState)
    (hls : ∀ l ∈ ls, lo ≤ l.price)
    (h0 : 0 ≤ s.filledSize)
    (hc : lo * s.filledSize ≤ s.totalCost) :
    0 ≤ (walkLevels ls s).filledSize ∧
      lo * (walkLevels ls s).filledSize ≤ (walkLevels ls s).totalCost := by
  induction ls generalizing s with
  | nil => exact ⟨h0, hc⟩
  | cons l rest ih =>
    by_cases hle : s.remainingSize ≤ 0
    · rw [walkLevels_of_done _ _ hle]; exact ⟨h0, hc⟩
    · simp only [walkLevels, if_neg hle]
      split_ifs with hfill
      · apply ih
        · exact fun l' hl' => hls l' (List.mem_cons_of_mem _ hl')
        · simpa using add_nonneg h0 hfill.le
        · have hp : lo ≤ l.price := hls l (by simp)
          have : min s.remainingSize l.size * lo ≤ min s.remainingSize l.size * l.price :=
            mul_le_mul_of_nonneg_left hp hfill.le
          simp only [WalkState.totalCost, WalkState.filledSize]
          nlinarith
      · exact ih s (fun l' hl' => hls l' (List.mem_cons_of_mem _ hl')) h0 hc

/-- Worst-price bound on an ascending list: the total cost stays at most
the worst touched price times the filled size. -/
theorem walkLevels_worst_bound (ls : List OrderBookLevel) (s : WalkState)
    (hpw : ls.Pairwise (fun a b => a.price ≤ b.price))
    (hmem : ∀ l ∈ ls, s.worstPrice ≤ l.price)
    (h0 : 0 ≤ s.filledSize)
    (hc : s.totalCost ≤ s.worstPrice * s.filledSize) :
    0 ≤ (walkLevels ls s).filledSize ∧
      (walkLevels ls s).totalCost ≤
        (walkLevels ls s).worstPrice * (walkLevels ls s).filledSize := by
  induction ls generalizing s with
  | nil => exact ⟨h0, hc⟩
  | cons l rest ih =>
    by_cases hle : s.remainingSize ≤ 0
    · rw [walkLevels_of_done _ _ hle]; exact ⟨h0, hc⟩
    · simp only [walkLevels, if_neg hle]
      rw [List.pairwise_cons] at hpw
      split_ifs with hfill
      · apply ih
        · exact hpw.2
        · exact fun l' hl' => hpw.1 l' hl'
        · simpa using add_nonneg h0 hfill.le
        · have hw : s.worstPrice ≤ l.price := hmem l (by simp)
          have h1 : s.totalCost ≤ l.price * s.filledSize :=
            le_trans hc (mul_le_mul_of_nonneg_right hw h0)
          simp only [WalkState.totalCost, WalkState.filledSize, WalkState.worstPrice]
          nlinarith
      · exact ih s hpw.2 (fun l' hl' => hmem l' (List.mem_cons_of_mem _ hl')) h0 hc

/-- Invariant of the fill breakdown: sizes sum to the filled size, the
last cumulative equals the filled size, every cumulative is bounded by
the filled size, and cumulatives are monotone. -/
theorem walkLevels_fills (ls : List OrderBookLevel) (s : WalkState)
    (hsum : (s.fills.map Fill.size).sum = s.filledSize)
    (hlast : lastCumulative s.fills = s.filledSize)
    (hub : ∀ f ∈ s.fills, f.cumulative ≤ s.filledSize)
    (hmono : s.fills.Pairwise (fun f g => f.cumulative ≤ g.cumulative)) :
    ((walkLevels ls s).fills.map Fill.size).sum = (walkLevels ls s).filledSize ∧
      lastCumulative (walkLevels ls s).fills = (walkLevels ls s).filledSize ∧
      (∀ f ∈ (walkLevels ls s).fills, f.cumulative ≤ (walkLevels ls s).filledSize) ∧
      (walkLevels ls s).fills.Pairwise (fun f g => f.cumulative ≤ g.cumulative) := by
  induction ls generalizing s with
  | nil => exact ⟨hsum, hlast, hub, hmono⟩
  | cons l rest ih =>
    by_cases hle : s.remainingSize ≤ 0
    · rw [walkLevels_of_done _ _ hle]; exact ⟨hsum, hlast, hub, hmono⟩
    · simp only [walkLevels, if_neg hle]
      split_ifs with hfill
      · apply ih
        · simp only [WalkState.fills, WalkState.filledSize, List.map_append, List.sum_append]
          simp [hsum]
        · simp only [WalkState.fills, WalkState.filledSize, lastCumulative,
            List.getLast?_concat]
          rfl
        · intro f hf
          simp only [WalkState.fills, WalkState.filledSize] at hf ⊢
          rcases List.mem_append.mp hf with hold | hnew
          · have := hub f hold
            linarith
          · simp at hnew
            simp [hnew]
        · simp only [WalkState.fills]
          rw [List.pairwise_append]
          refine ⟨hmono, by simp, ?_⟩
          intro f hf g hg
          simp at hg
          subst hg
          simp only [Fill.cumulative]
          have := hub f hf
          linarith
      · exact ih s hsum hlast hub hmono

/-- `calculateExecutionPrice` on an empty selected side is the empty
result. -/
theorem calculateExecutionPrice_nil {orderBook : OrderBook} {input : TradeInput}
    (h : selectedLevels orderBook input.side = []) :
    calculateExecutionPrice orderBook input = createEmptyResult input := by
  unfold calculateExecutionPrice
  rw [h]

/-- `calculateExecutionPrice` on a non-empty selected side is
`mkExecResult`. -/
theorem calculateExecutionPrice_cons {orderBook : OrderBook} {input : TradeInput}
    {first : OrderBookLevel} {rest : List OrderBookLevel}
    (h : selectedLevels orderBook input.side = first :: rest) :
    calculateExecutionPrice orderBook input = mkExecResult input first rest := by
  unfold calculateExecutionPrice
  rw [h]
  rfl

/-- Field view of `mkExecResult`: filled size. -/
theorem mkExecResult_filledSize (input : TradeInput) (first : OrderBookLevel)
    (rest : List OrderBookLevel) :
    (mkExecResult input first rest).filledSize = (execWalk input first rest).filledSize := rfl

/-- Field view of `mkExecResult`: remaining size. -/
theorem mkExecResult_remainingSize (input : TradeInput) (first : OrderBookLevel)
    (rest : List OrderBookLevel) :
    (mkExecResult input first rest).remainingSize = (execWalk input first rest).remainingSize := rfl

/-- Field view of `mkExecResult`: total cost. -/
theorem mkExecResult_totalCost (input : TradeInput) (first : OrderBookLevel)
    (rest : List OrderBookLevel) :
    (mkExecResult input first rest).totalCost = (execWalk input first rest).totalCost := rfl

/-- Field view of `mkExecResult`: worst touched price. -/
theorem mkExecResult_worstPrice (input : TradeInput) (first : OrderBookLevel)
    (rest : List OrderBookLevel) :
    (mkExecResult input first rest).worstPrice = (execWalk input first rest).worstPrice := rfl

/-- Field view of `mkExecResult`: best price is the first level's price. -/
theorem mkExecResult_bestPrice (input : TradeInput) (first : OrderBookLevel)
    (rest : List OrderBookLevel) :
    (mkExecResult input first rest).bestPrice = first.price := rfl

/-- Field view of `mkExecResult`: partial-fill flag. -/
theorem mkExecResult_partialFill (input : TradeInput) (first : OrderBookLevel)
    (rest : List OrderBookLevel) :
    (mkExecResult input first rest).partialFill =
      decide (0 < (execWalk input first rest).remainingSize) := rfl

/-- Field view of `mkExecResult`: average price. -/
theorem mkExecResult_averagePrice (input : TradeInput) (first : OrderBookLevel)
    (rest : List OrderBookLevel) :
    (mkExecResult input first rest).averagePrice =
      if 0 < (execWalk input first rest).filledSize then
        (execWalk input first rest).totalCost / (execWalk input first rest).filledSize
      else 0 := rfl

/-- Field view of `mkExecResult`: directional slippage. -/
theorem mkExecResult_slippageFromBest (input : TradeInput) (first : OrderBookLevel)
    (rest : List OrderBookLevel) :
    (mkExecResult input first rest).slippageFromBest =
      match input.side with
      | .BUY => (mkExecResult input first rest).averagePrice - first.price
      | .SELL => first.price - (mkExecResult input first rest).averagePrice := by
  rcases input with ⟨side, outcome, size⟩
  cases side <;> rfl

/-- Field view of `mkExecResult`: slippage percentage. -/
theorem mkExecResult_slippagePercent (input : TradeInput) (first : OrderBookLevel)
    (rest : List OrderBookLevel) :
    (mkExecResult input first rest).slippagePercent =
      if 0 < first.price then
        (mkExecResult input first rest).slippageFromBest / first.price * 100
      else 0 := rfl

/-! ## Claim theorems -/

/-- C3: whenever the side of the book selected by
`calculateExecutionPrice` (asks for BUY, bids for SELL) has zero
levels, the function returns a well-formed `ExecutionResult` (not an
error) with `filledSize = 0`, `averagePrice = 0`, `totalCost = 0`,
`bestPrice = 0`, `worstPrice = 0`, `slippageFromBest = 0`,
`slippagePercent = 0`, empty fills, `partialFill = true` and
`remainingSize = requestedSize`. -/
theorem C3_empty_side_result (orderBook : OrderBook) (input : TradeInput)
    (h : selectedLevels orderBook input.side = []) :
    calculateExecutionPrice orderBook input =
      { side := input.side
        outcome := input.outcome
        requestedSize := input.size
        filledSize := 0
        averagePrice := 0
        totalCost := 0
        bestPrice := 0
        worstPrice := 0
        slippageFromBest := 0
        slippagePercent := 0
        fills := []
        partialFill := true
        remainingSize := input.size } :=
  calculateExecutionPrice_nil h

/-- Witness for C3: a book with no asks, hit by a BUY of 5 contracts. -/
theorem C3_empty_side_result_witness :
    calculateExecutionPrice { bids := [⟨1/2, 10⟩], asks := [] } ⟨.BUY, .YES, 5⟩ =
      { side := .BUY
        outcome := .YES
        requestedSize := 5
        filledSize := 0
        averagePrice := 0
        totalCost := 0
        bestPrice := 0
        worstPrice := 0
        slippageFromBest := 0
        slippagePercent := 0
        fills := []
        partialFill := true
        remainingSize := 5 } :=
  C3_empty_side_result { bids := [⟨1/2, 10⟩], asks := [] } ⟨.BUY, .YES, 5⟩ rfl

/-- C10: the numeric outputs of `calculateExecutionPrice` do not depend
on the `outcome` field of the input — two runs on the same order book
with inputs differing only in outcome produce results equal in every
field except the echoed outcome. -/
theorem C10_outcome_noninterference (orderBook : OrderBook) (side : TradeSide)
    (size : ℚ) (o₁ o₂ : Outcome) :
    calculateExecutionPrice orderBook ⟨side, o₁, size⟩ =
      { calculateExecutionPrice orderBook ⟨side, o₂, size⟩ with outcome := o₁ } := by
  cases hsel : selectedLevels orderBook side with
  | nil =>
    rw [@calculateExecutionPrice_nil orderBook ⟨side, o₁, size⟩ hsel,
      @calculateExecutionPrice_nil orderBook ⟨side, o₂, size⟩ hsel]
    rfl
  | cons first rest =>
    rw [@calculateExecutionPrice_cons orderBook ⟨side, o₁, size⟩ first rest hsel,
      @calculateExecutionPrice_cons orderBook ⟨side, o₂, size⟩ first rest hsel]
    rfl

/-- C2: for every order book whose levels all have size ≥ 0 and every
trade input with positive size, the execution result satisfies
`filledSize ≤ requestedSize`, `partialFill == (remainingSize > 0)`,
monotonically non-decreasing cumulative fill sizes, fill sizes summing
exactly to `filledSize`, and last cumulative equal to `filledSize`. -/
theorem C2_execution_invariants (orderBook : OrderBook) (input : TradeInput)
    (hbids : ∀ l ∈ orderBook.bids, 0 ≤ l.size)
    (hasks : ∀ l ∈ orderBook.asks, 0 ≤ l.size)
    (hpos : 0 < input.size) :
    (calculateExecutionPrice orderBook input).filledSize ≤
        (calculateExecutionPrice orderBook input).requestedSize ∧
      ((calculateExecutionPrice orderBook input).partialFill = true ↔
        0 < (calculateExecutionPrice orderBook input).remainingSize) ∧
      (calculateExecutionPrice orderBook input).fills.Pairwise
        (fun f g => f.cumulative ≤ g.cumulative) ∧
      ((calculateExecutionPrice orderBook input).fills.map Fill.size).sum =
        (calculateExecutionPrice orderBook input).filledSize ∧
      lastCumulative (calculateExecutionPrice orderBook input).fills =
        (calculateExecutionPrice orderBook input).filledSize := by
  cases hsel : selectedLevels orderBook input.side with
  | nil =>
    rw [calculateExecutionPrice_nil hsel]
    refine ⟨hpos.le, ?_, ?_, ?_, ?_⟩ <;> simp [createEmptyResult, lastCumulative, hpos]
  | cons first rest =>
    rw [calculateExecutionPrice_cons hsel]
    have hrem0 : (0:ℚ) ≤ input.size := hpos.le
    have hnonneg := walkLevels_remaining_nonneg (first :: rest)
      { remainingSize := input.size, totalCost := 0, filledSize := 0,
        worstPrice := first.price, fills := [] } hrem0
    have hcons := walkLevels_conserve (first :: rest)
      { remainingSize := input.size, totalCost := 0, filledSize := 0,
        worstPrice := first.price, fills := [] }
    have hfills := walkLevels_fills (first :: rest)
      { remainingSize := input.size, totalCost := 0, filledSize := 0,
        worstPrice := first.price, fills := [] }
      (by simp) (by simp [lastCumulative]) (by simp) (by simp)
    simp only [WalkState.remainingSize, WalkState.filledSize] at hnonneg hcons
    refine ⟨?_, ?_, hfills.2.2.2, hfills.1, hfills.2.1⟩
    · simp only [mkExecResult]
      linarith
    · simp only [mkExecResult]
      exact decide_eq_true_iff

/-- Witness for C2: a BUY of 200 contracts against 150 contracts of ask
depth (a partial fill). -/
theorem C2_execution_invariants_witness :
    (calculateExecutionPrice { bids := [], asks := [⟨2/5, 50⟩, ⟨21/50, 100⟩] }
      ⟨.BUY, .YES, 200⟩).filledSize ≤
      (calculateExecutionPrice { bids := [], asks := [⟨2/5, 50⟩, ⟨21/50, 100⟩] }
      ⟨.BUY, .YES, 200⟩).requestedSize ∧
    ((calculateExecutionPrice { bids := [], asks := [⟨2/5, 50⟩, ⟨21/50, 100⟩] }
      ⟨.BUY, .YES, 200⟩).partialFill = true ↔
      0 < (calculateExecutionPrice { bids := [], asks := [⟨2/5, 50⟩, ⟨21/50, 100⟩] }
      ⟨.BUY, .YES, 200⟩).remainingSize) ∧
    (calculateExecutionPrice { bids := [], asks := [⟨2/5, 50⟩, ⟨21/50, 100⟩] }
      ⟨.BUY, .YES, 200⟩).fills.Pairwise
      (fun f g => f.cumulative ≤ g.cumulative) ∧
    ((calculateExecutionPrice { bids := [], asks := [⟨2/5, 50⟩, ⟨21/50, 100⟩] }
      ⟨.BUY, .YES, 200⟩).fills.map Fill.size).sum =
      (calculateExecutionPrice { bids := [], asks := [⟨2/5, 50⟩, ⟨21/50, 100⟩] }
      ⟨.BUY, .YES, 200⟩).filledSize ∧
    lastCumulative (calculateExecutionPrice { bids := [], asks := [⟨2/5, 50⟩, ⟨21/50, 100⟩] }
      ⟨.BUY, .YES, 200⟩).fills =
      (calculateExecutionPrice { bids := [], asks := [⟨2/5, 50⟩, ⟨21/50, 100⟩] }
      ⟨.BUY, .YES, 200⟩).filledSize :=
  C2_execution_invariants { bids := [], asks := [⟨2/5, 50⟩, ⟨21/50, 100⟩] }
    ⟨.BUY, .YES, 200⟩ (by simp) (by decide) (by norm_num)

/-- C1: for every order book with non-empty asks sorted ascending by
price, all ask sizes positive, and every BUY input with
`0 < size ≤ total ask depth`, the execution fills completely
(`filledSize = size`, `partialFill = false`) and the weighted-average
price lies between the best and worst touched price inclusive. -/
theorem C1_buy_full_fill (orderBook : OrderBook) (input : TradeInput)
    (hside : input.side = .BUY)
    (hne : orderBook.asks ≠ [])
    (hsorted : orderBook.asks.Pairwise (fun a b => a.price ≤ b.price))
    (hsz : ∀ l ∈ orderBook.asks, 0 < l.size)
    (hpos : 0 < input.size)
    (hdepth : input.size ≤ (orderBook.asks.map OrderBookLevel.size).sum) :
    (calculateExecutionPrice orderBook input).filledSize = input.size ∧
      (calculateExecutionPrice orderBook input).partialFill = false ∧
      (calculateExecutionPrice orderBook input).bestPrice ≤
        (calculateExecutionPrice orderBook input).averagePrice ∧
      (calculateExecutionPrice orderBook input).averagePrice ≤
        (calculateExecutionPrice orderBook input).worstPrice := by
  have hsel : selectedLevels orderBook input.side = orderBook.asks := by
    rw [hside]
    rfl
  cases hasks : orderBook.asks with
  | nil => exact absurd hasks hne
  | cons first rest =>
    rw [hasks] at hsel hsorted hsz hdepth
    rw [calculateExecutionPrice_cons hsel]
    have hall : ∀ l ∈ first :: rest, first.price ≤ l.price := by
      intro l hl
      rcases List.mem_cons.mp hl with h | h
      · rw [h]
      · exact (List.pairwise_cons.mp hsorted).1 l h
    have hnn : 0 ≤ (execWalk input first rest).remainingSize :=
      walkLevels_remaining_nonneg _ _ (by simpa using hpos.le)
    have hnp : (execWalk input first rest).remainingSize ≤ 0 :=
      walkLevels_remaining_nonpos_of_depth _ _ hsz (by simpa using hdepth)
    have hrem : (execWalk input first rest).remainingSize = 0 := le_antisymm hnp hnn
    have hcons : (execWalk input first rest).remainingSize +
        (execWalk input first rest).filledSize = input.size + 0 :=
      walkLevels_conserve (first :: rest) _
    have hfilled : (execWalk input first rest).filledSize = input.size := by
      rw [hrem] at hcons
      linarith
    have hge : 0 ≤ (execWalk input first rest).filledSize ∧
        first.price * (execWalk input first rest).filledSize ≤
          (execWalk input first rest).totalCost :=
      walkLevels_cost_ge first.price (first :: rest) _ hall (le_refl 0) (by simp)
    have hwb : 0 ≤ (execWalk input first rest).filledSize ∧
        (execWalk input first rest).totalCost ≤
          (execWalk input first rest).worstPrice * (execWalk input first rest).filledSize :=
      walkLevels_worst_bound (first :: rest) _ hsorted hall (le_refl 0) (by simp)
    have havg : (mkExecResult input first rest).averagePrice =
        (execWalk input first rest).totalCost / input.size := by
      rw [mkExecResult_averagePrice, hfilled, if_pos hpos]
    refine ⟨?_, ?_, ?_, ?_⟩
    · rw [mkExecResult_filledSize, hfilled]
    · rw [mkExecResult_partialFill, hrem]
      simp
    · rw [mkExecResult_bestPrice, havg, le_div_iff₀ hpos]
      have h2 := hge.2
      rw [hfilled] at h2
      exact h2
    · rw [mkExecResult_worstPrice, havg, div_le_iff₀ hpos]
      have h2 := hwb.2
      rw [hfilled] at h2
      exact h2

/-- Witness for C1: asks `[{0.40,50},{0.42,100}]`, BUY of 120. -/
theorem C1_buy_full_fill_witness :
    (calculateExecutionPrice { bids := [], asks := [⟨2/5, 50⟩, ⟨21/50, 100⟩] }
        ⟨.BUY, .YES, 120⟩).filledSize = 120 ∧
      (calculateExecutionPrice { bids := [], asks := [⟨2/5, 50⟩, ⟨21/50, 100⟩] }
        ⟨.BUY, .YES, 120⟩).partialFill = false ∧
      (calculateExecutionPrice { bids := [], asks := [⟨2/5, 50⟩, ⟨21/50, 100⟩] }
        ⟨.BUY, .YES, 120⟩).bestPrice ≤
        (calculateExecutionPrice { bids := [], asks := [⟨2/5, 50⟩, ⟨21/50, 100⟩] }
          ⟨.BUY, .YES, 120⟩).averagePrice ∧
      (calculateExecutionPrice { bids := [], asks := [⟨2/5, 50⟩, ⟨21/50, 100⟩] }
        ⟨.BUY, .YES, 120⟩).averagePrice ≤
        (calculateExecutionPrice { bids := [], asks := [⟨2/5, 50⟩, ⟨21/50, 100⟩] }
          ⟨.BUY, .YES, 120⟩).worstPrice :=
  C1_buy_full_fill { bids := [], asks := [⟨2/5, 50⟩, ⟨21/50, 100⟩] }
    ⟨.BUY, .YES, 120⟩ rfl (by simp)
    (by norm_num [List.pairwise_cons])
    (by norm_num [List.forall_mem_cons])
    (by norm_num) (by norm_num)

/-- C9: for every order book whose selected side is correctly sorted
(asks ascending for BUY, bids descending for SELL), with positive level
sizes and positive input size (the data-model preconditions), the
execution result has `slippageFromBest ≥ 0` — for BUY the average price
is at least the best price, for SELL at most — and consequently
`slippagePercent ≥ 0` when `bestPrice > 0`. -/
theorem C9_slippage_nonneg (orderBook : OrderBook) (input : TradeInput)
    (hsorted : (selectedLevels orderBook input.side).Pairwise
      (fun a b =>
        match input.side with
        | .BUY => a.price ≤ b.price
        | .SELL => b.price ≤ a.price))
    (hsz : ∀ l ∈ selectedLevels orderBook input.side, 0 < l.size)
    (hpos : 0 < input.size) :
    0 ≤ (calculateExecutionPrice orderBook input).slippageFromBest ∧
      (input.side = .BUY →
        (calculateExecutionPrice orderBook input).bestPrice ≤
          (calculateExecutionPrice orderBook input).averagePrice) ∧
      (input.side = .SELL →
        (calculateExecutionPrice orderBook input).averagePrice ≤
          (calculateExecutionPrice orderBook input).bestPrice) ∧
      (0 < (calculateExecutionPrice orderBook input).bestPrice →
        0 ≤ (calculateExecutionPrice orderBook input).slippagePercent) := by
  obtain ⟨side, outcome, size⟩ := input
  cases side with
  | BUY =>
    have hsorted' : orderBook.asks.Pairwise (fun a b => a.price ≤ b.price) := hsorted
    have hsz' : ∀ l ∈ orderBook.asks, 0 < l.size := hsz
    have hpos' : (0:ℚ) < size := hpos
    cases hasks : orderBook.asks with
    | nil =>
      have hsel : selectedLevels orderBook
          (TradeInput.mk .BUY outcome size).side = [] := hasks
      rw [calculateExecutionPrice_nil hsel]
      simp [createEmptyResult]
    | cons first rest =>
      have hsel : selectedLevels orderBook
          (TradeInput.mk .BUY outcome size).side = first :: rest := hasks
      rw [calculateExecutionPrice_cons hsel]
      rw [hasks] at hsorted' hsz'
      have hfirst : 0 < first.size := hsz' first (by simp)
      have hfp : 0 < (execWalk ⟨.BUY, outcome, size⟩ first rest).filledSize := by
        have h := walkLevels_filled_pos first rest
          { remainingSize := size, totalCost := 0, filledSize := 0,
            worstPrice := first.price, fills := [] }
          (by simpa using hpos') hfirst
        simpa using h
      have hall : ∀ l ∈ first :: rest, first.price ≤ l.price := by
        intro l hl
        rcases List.mem_cons.mp hl with h | h
        · rw [h]
        · exact (List.pairwise_cons.mp hsorted').1 l h
      have hge : 0 ≤ (execWalk ⟨.BUY, outcome, size⟩ first rest).filledSize ∧
          first.price * (execWalk ⟨.BUY, outcome, size⟩ first rest).filledSize ≤
            (execWalk ⟨.BUY, outcome, size⟩ first rest).totalCost :=
        walkLevels_cost_ge first.price (first :: rest) _ hall (le_refl 0) (by simp)
      have havg : (mkExecResult ⟨.BUY, outcome, size⟩ first rest).averagePrice =
          (execWalk ⟨.BUY, outcome, size⟩ first rest).totalCost /
            (execWalk ⟨.BUY, outcome, size⟩ first rest).filledSize := by
        rw [mkExecResult_averagePrice, if_pos hfp]
      have hble : first.price ≤ (mkExecResult ⟨.BUY, outcome, size⟩ first rest).averagePrice := by
        rw [havg, le_div_iff₀ hfp]
        exact hge.2
      have hslip : (mkExecResult ⟨.BUY, outcome, size⟩ first rest).slippageFromBest =
          (mkExecResult ⟨.BUY, outcome, size⟩ first rest).averagePrice - first.price :=
        mkExecResult_slippageFromBest ⟨.BUY, outcome, size⟩ first rest
      have hs0 : 0 ≤ (mkExecResult ⟨.BUY, outcome, size⟩ first rest).slippageFromBest := by
        rw [hslip]
        linarith
      have hsp : 0 ≤ (mkExecResult ⟨.BUY, outcome, size⟩ first rest).slippagePercent := by
        rw [mkExecResult_slippagePercent]
        split_ifs with hbp
        · exact mul_nonneg (div_nonneg hs0 hbp.le) (by norm_num)
        · exact le_refl 0
      refine ⟨hs0, fun _ => ?_, fun h => by simp at h, fun _ => hsp⟩
      rw [mkExecResult_bestPrice]
      exact hble
  | SELL =>
    have hsorted' : orderBook.bids.Pairwise (fun a b => b.price ≤ a.price) := hsorted
    have hsz' : ∀ l ∈ orderBook.bids, 0 < l.size := hsz
    have hpos' : (0:ℚ) < size := hpos
    cases hbids : orderBook.bids with
    | nil =>
      have hsel : selectedLevels orderBook
          (TradeInput.mk .SELL outcome size).side = [] := hbids
      rw [calculateExecutionPrice_nil hsel]
      simp [createEmptyResult]
    | cons first rest =>
      have hsel : selectedLevels orderBook
          (TradeInput.mk .SELL outcome size).side = first :: rest := hbids
      rw [calculateExecutionPrice_cons hsel]
      rw [hbids] at hsorted' hsz'
      have hfirst : 0 < first.size := hsz' first (by simp)
      have hfp : 0 < (execWalk ⟨.SELL, outcome, size⟩ first rest).filledSize := by
        have h := walkLevels_filled_pos first rest
          { remainingSize := size, totalCost := 0, filledSize := 0,
            worstPrice := first.price, fills := [] }
          (by simpa using hpos') hfirst
        simpa using h
      have hall : ∀ l ∈ first :: rest, l.price ≤ first.price := by
        intro l hl
        rcases List.mem_cons.mp hl with h | h
        · rw [h]
        · exact (List.pairwise_cons.mp hsorted').1 l h
      have hle : 0 ≤ (execWalk ⟨.SELL, outcome, size⟩ first rest).filledSize ∧
          (execWalk ⟨.SELL, outcome, size⟩ first rest).totalCost ≤
            first.price * (execWalk ⟨.SELL, outcome, size⟩ first rest).filledSize :=
        walkLevels_cost_le first.price (first :: rest) _ hall (le_refl 0) (by simp)
      have havg : (mkExecResult ⟨.SELL, outcome, size⟩ first rest).averagePrice =
          (execWalk ⟨.SELL, outcome, size⟩ first rest).totalCost /
            (execWalk ⟨.SELL, outcome, size⟩ first rest).filledSize := by
        rw [mkExecResult_averagePrice, if_pos hfp]
      have hage : (mkExecResult ⟨.SELL, outcome, size⟩ first rest).averagePrice ≤ first.price := by
        rw [havg, div_le_iff₀ hfp]
        exact hle.2
      have hslip : (mkExecResult ⟨.SELL, outcome, size⟩ first rest).slippageFromBest =
          first.price - (mkExecResult ⟨.SELL, outcome, size⟩ first rest).averagePrice :=
        mkExecResult_slippageFromBest ⟨.SELL, outcome, size⟩ first rest
      have hs0 : 0 ≤ (mkExecResult ⟨.SELL, outcome, size⟩ first rest).slippageFromBest := by
        rw [hslip]
        linarith
      have hsp : 0 ≤ (mkExecResult ⟨.SELL, outcome, size⟩ first rest).slippagePercent := by
        rw [mkExecResult_slippagePercent]
        split_ifs with hbp
        · exact mul_nonneg (div_nonneg hs0 hbp.le) (by norm_num)
        · exact le_refl 0
      refine ⟨hs0, fun h => by simp at h, fun _ => ?_, fun _ => hsp⟩
      rw [mkExecResult_bestPrice]
      exact hage

/-- Witness for C9: a SELL of 80 into bids `[{0.50,60},{0.45,60}]`. -/
theorem C9_slippage_nonneg_witness :
    0 ≤ (calculateExecutionPrice { bids := [⟨1/2, 60⟩, ⟨9/20, 60⟩], asks := [] }
        ⟨.SELL, .YES, 80⟩).slippageFromBest ∧
      ((TradeInput.mk .SELL .YES 80).side = .BUY →
        (calculateExecutionPrice { bids := [⟨1/2, 60⟩, ⟨9/20, 60⟩], asks := [] }
          ⟨.SELL, .YES, 80⟩).bestPrice ≤
          (calculateExecutionPrice { bids := [⟨1/2, 60⟩, ⟨9/20, 60⟩], asks := [] }
            ⟨.SELL, .YES, 80⟩).averagePrice) ∧
      ((TradeInput.mk .SELL .YES 80).side = .SELL →
        (calculateExecutionPrice { bids := [⟨1/2, 60⟩, ⟨9/20, 60⟩], asks := [] }
          ⟨.SELL, .YES, 80⟩).averagePrice ≤
          (calculateExecutionPrice { bids := [⟨1/2, 60⟩, ⟨9/20, 60⟩], asks := [] }
            ⟨.SELL, .YES, 80⟩).bestPrice) ∧
      (0 < (calculateExecutionPrice { bids := [⟨1/2, 60⟩, ⟨9/20, 60⟩], asks := [] }
          ⟨.SELL, .YES, 80⟩).bestPrice →
        0 ≤ (calculateExecutionPrice { bids := [⟨1/2, 60⟩, ⟨9/20, 60⟩], asks := [] }
          ⟨.SELL, .YES, 80⟩).slippagePercent) :=
  C9_slippage_nonneg { bids := [⟨1/2, 60⟩, ⟨9/20, 60⟩], asks := [] }
    ⟨.SELL, .YES, 80⟩
    (by norm_num [selectedLevels, List.pairwise_cons])
    (by norm_num [selectedLevels, List.forall_mem_cons])
    (by norm_num)

/-- Helper: bounds of `min`/`max` of a nonnegative and a nonpositive
quantity whose difference is `n`. -/
theorem minmax_bounds_pos_neg (a b n : ℚ) (ha : 0 ≤ a) (hb : b ≤ 0) (hsum : a - b = n) :
    min a b ≤ 0 ∧ 0 ≤ max a b ∧ (min a b = 0 ∧ max a b = 0 → n = 0) := by
  refine ⟨le_trans (min_le_right a b) hb, le_trans ha (le_max_left a b), ?_⟩
  rintro ⟨hl, hg⟩
  have h1 := min_le_left a b
  have h2 := min_le_right a b
  have h3 := le_max_left a b
  have h4 := le_max_right a b
  linarith

/-- Helper: mirrored version of `minmax_bounds_pos_neg`. -/
theorem minmax_bounds_neg_pos (a b n : ℚ) (ha : a ≤ 0) (hb : 0 ≤ b) (hsum : b - a = n) :
    min a b ≤ 0 ∧ 0 ≤ max a b ∧ (min a b = 0 ∧ max a b = 0 → n = 0) := by
  refine ⟨le_trans (min_le_left a b) ha, le_trans hb (le_max_right a b), ?_⟩
  rintro ⟨hl, hg⟩
  have h1 := min_le_left a b
  have h2 := min_le_right a b
  have h3 := le_max_left a b
  have h4 := le_max_right a b
  linarith

/-- C4: for every execution with `filledSize > 0` the payoff follows
the four-case sign table on `(side, outcome)` (with the exact
difference law `pnlIfYes − pnlIfNo = n` for BUY YES), and for
`filledSize = 0` the all-zero payoff (`createZeroPayoff`) is
returned. -/
theorem C4_payoff_sign_table (execution : ExecutionResult) :
    (execution.filledSize = 0 → calculatePayoff execution = createZeroPayoff execution) ∧
      (0 < execution.filledSize →
        match execution.side, execution.outcome with
        | .BUY, .YES =>
          (calculatePayoff execution).pnlIfYes =
              (1 - execution.averagePrice) * execution.filledSize ∧
            (calculatePayoff execution).pnlIfNo =
              -execution.averagePrice * execution.filledSize ∧
            (calculatePayoff execution).pnlIfYes - (calculatePayoff execution).pnlIfNo =
              execution.filledSize
        | .BUY, .NO =>
          (calculatePayoff execution).pnlIfYes =
              -execution.averagePrice * execution.filledSize ∧
            (calculatePayoff execution).pnlIfNo =
              (1 - execution.averagePrice) * execution.filledSize
        | .SELL, .YES =>
          (calculatePayoff execution).pnlIfYes =
              (execution.averagePrice - 1) * execution.filledSize ∧
            (calculatePayoff execution).pnlIfNo =
              execution.averagePrice * execution.filledSize
        | .SELL, .NO =>
          (calculatePayoff execution).pnlIfYes =
              execution.averagePrice * execution.filledSize ∧
            (calculatePayoff execution).pnlIfNo =
              (execution.averagePrice - 1) * execution.filledSize) := by
  constructor
  · intro h0
    rw [calculatePayoff, if_pos h0]
  · intro hpos
    have hne : execution.filledSize ≠ 0 := ne_of_gt hpos
    cases hs : execution.side <;> cases ho : execution.outcome
    · simp only [calculatePayoff, if_neg hne, hs, ho, calculateResolutionPnL]
      refine ⟨trivial, trivial, ?_⟩
      ring
    · simp only [calculatePayoff, if_neg hne, hs, ho, calculateResolutionPnL]
      exact ⟨trivial, trivial⟩
    · simp only [calculatePayoff, if_neg hne, hs, ho, calculateResolutionPnL]
      exact ⟨trivial, trivial⟩
    · simp only [calculatePayoff, if_neg hne, hs, ho, calculateResolutionPnL]
      exact ⟨trivial, trivial⟩

/-- Witness for C4: BUY YES filled 100 contracts at average price 0.40
gives `pnlIfYes = 60` and `pnlIfNo = −40`. -/
theorem C4_payoff_sign_table_witness :
    (calculatePayoff
        { side := .BUY, outcome := .YES, requestedSize := 100, filledSize := 100,
          averagePrice := 2/5, totalCost := 40, bestPrice := 2/5, worstPrice := 2/5,
          slippageFromBest := 0, slippagePercent := 0, fills := [], partialFill := false,
          remainingSize := 0 }).pnlIfYes = 60 ∧
      (calculatePayoff
        { side := .BUY, outcome := .YES, requestedSize := 100, filledSize := 100,
          averagePrice := 2/5, totalCost := 40, bestPrice := 2/5, worstPrice := 2/5,
          slippageFromBest := 0, slippagePercent := 0, fills := [], partialFill := false,
          remainingSize := 0 }).pnlIfNo = -40 := by
  have h := (C4_payoff_sign_table
    { side := .BUY, outcome := .YES, requestedSize := 100, filledSize := 100,
      averagePrice := 2/5, totalCost := 40, bestPrice := 2/5, worstPrice := 2/5,
      slippageFromBest := 0, slippagePercent := 0, fills := [], partialFill := false,
      remainingSize := 0 }).2 (by norm_num)
  obtain ⟨h1, h2, _⟩ := h
  constructor
  · rw [h1]; norm_num
  · rw [h2]; norm_num

/-- C5: for every execution with `averagePrice ∈ [0,1]` and
`filledSize ≥ 0` the payoff satisfies `maxLoss ≤ 0 ≤ maxGain`, and both
bounds vanish simultaneously only in the zero-fill case. -/
theorem C5_payoff_risk_bounds (execution : ExecutionResult)
    (hp0 : 0 ≤ execution.averagePrice) (hp1 : execution.averagePrice ≤ 1)
    (hn : 0 ≤ execution.filledSize) :
    (calculatePayoff execution).maxLoss ≤ 0 ∧
      0 ≤ (calculatePayoff execution).maxGain ∧
      ((calculatePayoff execution).maxLoss = 0 ∧ (calculatePayoff execution).maxGain = 0 →
        execution.filledSize = 0) := by
  by_cases h0 : execution.filledSize = 0
  · rw [calculatePayoff, if_pos h0]
    exact ⟨le_refl 0, le_refl 0, fun _ => h0⟩
  · cases hs : execution.side <;> cases ho : execution.outcome <;>
      simp only [calculatePayoff, if_neg h0, hs, ho, calculateResolutionPnL]
    · exact minmax_bounds_pos_neg _ _ _
        (mul_nonneg (by linarith) hn) (by nlinarith [mul_nonneg hp0 hn]) (by ring)
    · exact minmax_bounds_neg_pos _ _ _
        (by nlinarith [mul_nonneg hp0 hn]) (mul_nonneg (by linarith) hn) (by ring)
    · exact minmax_bounds_neg_pos _ _ _
        (by nlinarith [mul_nonneg (by linarith : (0:ℚ) ≤ 1 - execution.averagePrice) hn])
        (mul_nonneg hp0 hn) (by ring)
    · exact minmax_bounds_pos_neg _ _ _
        (mul_nonneg hp0 hn)
        (by nlinarith [mul_nonneg (by linarith : (0:ℚ) ≤ 1 - execution.averagePrice) hn])
        (by ring)

/-- Witness for C5: SELL NO filled 50 contracts at average price 0.3. -/
theorem C5_payoff_risk_bounds_witness :
    (calculatePayoff
        { side := .SELL, outcome := .NO, requestedSize := 50, filledSize := 50,
          averagePrice := 3/10, totalCost := 15, bestPrice := 3/10, worstPrice := 3/10,
          slippageFromBest := 0, slippagePercent := 0, fills := [], partialFill := false,
          remainingSize := 0 }).maxLoss ≤ 0 ∧
      0 ≤ (calculatePayoff
        { side := .SELL, outcome := .NO, requestedSize := 50, filledSize := 50,
          averagePrice := 3/10, totalCost := 15, bestPrice := 3/10, worstPrice := 3/10,
          slippageFromBest := 0, slippagePercent := 0, fills := [], partialFill := false,
          remainingSize := 0 }).maxGain ∧
      ((calculatePayoff
          { side := .SELL, outcome := .NO, requestedSize := 50, filledSize := 50,
            averagePrice := 3/10, totalCost := 15, bestPrice := 3/10, worstPrice := 3/10,
            slippageFromBest := 0, slippagePercent := 0, fills := [], partialFill := false,
            remainingSize := 0 }).maxLoss = 0 ∧
        (calculatePayoff
          { side := .SELL, outcome := .NO, requestedSize := 50, filledSize := 50,
            averagePrice := 3/10, totalCost := 15, bestPrice := 3/10, worstPrice := 3/10,
            slippageFromBest := 0, slippagePercent := 0, fills := [], partialFill := false,
            remainingSize := 0 }).maxGain = 0 →
        ({ side := .SELL, outcome := .NO, requestedSize := 50, filledSize := 50,
            averagePrice := 3/10, totalCost := 15, bestPrice := 3/10, worstPrice := 3/10,
            slippageFromBest := 0, slippagePercent := 0, fills := [], partialFill := false,
            remainingSize := 0 } : ExecutionResult).filledSize = 0) :=
  C5_payoff_risk_bounds
    { side := .SELL, outcome := .NO, requestedSize := 50, filledSize := 50,
      averagePrice := 3/10, totalCost := 15, bestPrice := 3/10, worstPrice := 3/10,
      slippageFromBest := 0, slippagePercent := 0, fills := [], partialFill := false,
      remainingSize := 0 }
    (by norm_num) (by norm_num) (by norm_num)

/-- Helper: the clamped Kelly expression vanishes when the raw edge
vanishes (positive win payoff and loss stake). -/
theorem kelly_zero_of_edge_zero (w q pw ll : ℚ) (hpw : 0 < pw) (hll : 0 < ll)
    (hedge : w * pw - q * ll = 0) :
    max 0 ((w * (pw / ll) - q) / (pw / ll)) = 0 := by
  have hnum : w * (pw / ll) - q = 0 := by
    have h1 : w * (pw / ll) - q = (w * pw - q * ll) / ll := by
      field_simp
      ring
    rw [h1, hedge, zero_div]
  rw [hnum, zero_div]
  simp

/-- C6: for every `trueProb ∈ [0,1]`, `marketPrice ∈ (0,1)` and every
`(side, outcome)` combination, the Kelly fraction is never negative,
and it is 0 whenever the returned edge is 0. -/
theorem C6_kelly_fraction (trueProb marketPrice : ℚ) (side : TradeSide) (outcome : Outcome)
    (ht0 : 0 ≤ trueProb) (ht1 : trueProb ≤ 1)
    (hm0 : 0 < marketPrice) (hm1 : marketPrice < 1) :
    0 ≤ (calculateKellyFraction trueProb marketPrice side outcome).fraction ∧
      ((calculateKellyFraction trueProb marketPrice side outcome).edge = 0 →
        (calculateKellyFraction trueProb marketPrice side outcome).fraction = 0) := by
  cases side <;> cases outcome <;>
    simp only [calculateKellyFraction] <;>
    refine ⟨le_max_left 0 _, fun hedge => ?_⟩ <;>
    exact kelly_zero_of_edge_zero _ _ _ _ (by linarith) (by linarith) hedge

/-- Witness for C6: BUY NO with `trueProb = 0.6`, `marketPrice = 0.4`
(zero edge: win probability 0.4 against cost 0.4). -/
theorem C6_kelly_fraction_witness :
    0 ≤ (calculateKellyFraction (3/5) (2/5) .BUY .NO).fraction ∧
      ((calculateKellyFraction (3/5) (2/5) .BUY .NO).edge = 0 →
        (calculateKellyFraction (3/5) (2/5) .BUY .NO).fraction = 0) :=
  C6_kelly_fraction (3/5) (2/5) .BUY .NO
    (by norm_num) (by norm_num) (by norm_num) (by norm_num)

/-- One-step unfolding of the binary-search loop with its local
bindings inlined. -/
theorem arbSearchLoop_unfold (marketA marketB : MarketOrderBooks) (e : ℚ)
    (low high maxSize : ℕ) :
    arbSearchLoop marketA marketB e low high maxSize =
      if 1 < high - low then
        (if 0 < e * 100 -
            ((calculateExecutionPrice marketA.yes
                ⟨.BUY, .YES, (((low + high) / 2 : ℕ) : ℚ)⟩).slippagePercent +
              (calculateExecutionPrice marketB.yes
                ⟨.BUY, .YES, (((low + high) / 2 : ℕ) : ℚ)⟩).slippagePercent) then
          arbSearchLoop marketA marketB e ((low + high) / 2) high ((low + high) / 2)
        else
          arbSearchLoop marketA marketB e low ((low + high) / 2) maxSize)
      else maxSize := by
  rw [arbSearchLoop]
  rfl

/-- Invariant of the binary-search loop: the returned size stays below
`high`, and it is either the seed 0 or a size at which the edge is
still viable. -/
theorem arbSearchLoop_spec (marketA marketB : MarketOrderBooks) (e : ℚ) (n : ℕ) :
    ∀ low high maxSize : ℕ, high - low ≤ n → low < high → high ≤ 10000 →
      (maxSize = 0 ∨ (viableEdgeAt marketA marketB e maxSize ∧ maxSize ≤ low)) →
      arbSearchLoop marketA marketB e low high maxSize < high ∧
        (arbSearchLoop marketA marketB e low high maxSize = 0 ∨
          viableEdgeAt marketA marketB e (arbSearchLoop marketA marketB e low high maxSize)) := by
  induction n with
  | zero =>
    intro low high maxSize hfuel hlh _ _
    omega
  | succ n ih =>
    intro low high maxSize hfuel hlh hhigh hinv
    rw [arbSearchLoop_unfold]
    split_ifs with hgt hedge
    · exact ih ((low + high) / 2) high ((low + high) / 2)
        (by omega) (by omega) hhigh (Or.inr ⟨hedge, le_refl _⟩)
    · have hrec := ih low ((low + high) / 2) maxSize
        (by omega) (by omega) (by omega) hinv
      exact ⟨by omega, hrec.2⟩
    · rcases hinv with h0 | ⟨hv, hle⟩
      · exact ⟨by omega, Or.inl h0⟩
      · exact ⟨by omega, Or.inr hv⟩

/-- `findMaxViableArbSize` never reports 10000, and any nonzero report
is a size at which the given edge is still viable. -/
theorem findMaxViableArbSize_spec (marketA marketB : MarketOrderBooks) (edge : ℚ) :
    findMaxViableArbSize marketA marketB edge ≤ 9999 ∧
      (findMaxViableArbSize marketA marketB edge = 0 ∨
        viableEdgeAt marketA marketB edge (findMaxViableArbSize marketA marketB edge)) := by
  unfold findMaxViableArbSize
  split_ifs with h
  · exact ⟨by norm_num, Or.inl rfl⟩
  · have hs := arbSearchLoop_spec marketA marketB edge 10000 0 10000 0
      (by norm_num) (by norm_num) (by norm_num) (Or.inl rfl)
    exact ⟨by omega, hs.2⟩

/-- When `detectApparentArbitrage` flags arbitrage, the reported edge
is strictly positive (at least the 2% fee allowance). -/
theorem detectApparentArbitrage_edge_pos (a b c d : ExecutionResult)
    (h : (detectApparentArbitrage a b c d).hasArbitrage = true) :
    0 < (detectApparentArbitrage a b c d).arbitrageEdge := by
  simp only [detectApparentArbitrage] at h ⊢
  split_ifs at h ⊢ with h1 h2 h3
  · show (0:ℚ) < 1 - (a.averagePrice + b.averagePrice)
    linarith
  · show (0:ℚ) < 1 - (c.averagePrice + d.averagePrice)
    linarith

/-- Field view of `compareMarkets`: the apparent-arbitrage flag. -/
theorem compareMarkets_apparentArbitrage (marketA marketB : MarketOrderBooks) (tradeSize : ℚ) :
    (compareMarkets marketA marketB tradeSize).apparentArbitrage =
      (comparisonArb marketA marketB tradeSize).hasArbitrage := rfl

/-- Field view of `compareMarkets`: the arbitrage edge. -/
theorem compareMarkets_arbitrageEdge (marketA marketB : MarketOrderBooks) (tradeSize : ℚ) :
    (compareMarkets marketA marketB tradeSize).arbitrageEdge =
      (comparisonArb marketA marketB tradeSize).arbitrageEdge := rfl

/-- Field view of `compareMarkets`: the max viable size is the result
of the binary search seeded with the edge only when arbitrage was
flagged. -/
theorem compareMarkets_maxViableSize (marketA marketB : MarketOrderBooks) (tradeSize : ℚ) :
    (compareMarkets marketA marketB tradeSize).maxViableSize =
      findMaxViableArbSize marketA marketB
        (if (comparisonArb marketA marketB tradeSize).hasArbitrage = true then
          |(comparisonArb marketA marketB tradeSize).arbitrageEdge|
        else 0) := rfl

/-- Counterexample for C7: two markets whose YES legs differ by 0.10.
`detectApparentArbitrage` reports `arbitrageEdge = 0.10 > 0` but with
`hasArbitrage = false` (the cross-market discrepancy branch), so the
binary search is seeded with 0 and `maxViableSize = 0` — even though
the edge is still viable at size 1 (both books have a single deep
level, so slippage is zero), so 0 is not the largest viable size in
`[0, 10000]`. -/
theorem C7_counterexample :
    0 < (compareMarkets
        (⟨"A", "qa", ⟨[], [⟨3/10, 100000⟩]⟩, ⟨[], [⟨69/100, 100000⟩]⟩⟩ : MarketOrderBooks)
        (⟨"B", "qb", ⟨[], [⟨2/5, 100000⟩]⟩, ⟨[], [⟨59/100, 100000⟩]⟩⟩ : MarketOrderBooks) 10).arbitrageEdge ∧
      (compareMarkets
        (⟨"A", "qa", ⟨[], [⟨3/10, 100000⟩]⟩, ⟨[], [⟨69/100, 100000⟩]⟩⟩ : MarketOrderBooks)
        (⟨"B", "qb", ⟨[], [⟨2/5, 100000⟩]⟩, ⟨[], [⟨59/100, 100000⟩]⟩⟩ : MarketOrderBooks) 10).maxViableSize = 0 ∧
      viableEdgeAt
        (⟨"A", "qa", ⟨[], [⟨3/10, 100000⟩]⟩, ⟨[], [⟨69/100, 100000⟩]⟩⟩ : MarketOrderBooks)
        (⟨"B", "qb", ⟨[], [⟨2/5, 100000⟩]⟩, ⟨[], [⟨59/100, 100000⟩]⟩⟩ : MarketOrderBooks)
        (compareMarkets
          (⟨"A", "qa", ⟨[], [⟨3/10, 100000⟩]⟩, ⟨[], [⟨69/100, 100000⟩]⟩⟩ : MarketOrderBooks)
          (⟨"B", "qb", ⟨[], [⟨2/5, 100000⟩]⟩, ⟨[], [⟨59/100, 100000⟩]⟩⟩ : MarketOrderBooks) 10).arbitrageEdge 1 ∧
      ¬ (∀ s : ℕ, s ≤ 10000 →
          viableEdgeAt
            (⟨"A", "qa", ⟨[], [⟨3/10, 100000⟩]⟩, ⟨[], [⟨69/100, 100000⟩]⟩⟩ : MarketOrderBooks)
            (⟨"B", "qb", ⟨[], [⟨2/5, 100000⟩]⟩, ⟨[], [⟨59/100, 100000⟩]⟩⟩ : MarketOrderBooks)
            (compareMarkets
              (⟨"A", "qa", ⟨[], [⟨3/10, 100000⟩]⟩, ⟨[], [⟨69/100, 100000⟩]⟩⟩ : MarketOrderBooks)
              (⟨"B", "qb", ⟨[], [⟨2/5, 100000⟩]⟩, ⟨[], [⟨59/100, 100000⟩]⟩⟩ : MarketOrderBooks) 10).arbitrageEdge s →
          s ≤ (compareMarkets
            (⟨"A", "qa", ⟨[], [⟨3/10, 100000⟩]⟩, ⟨[], [⟨69/100, 100000⟩]⟩⟩ : MarketOrderBooks)
            (⟨"B", "qb", ⟨[], [⟨2/5, 100000⟩]⟩, ⟨[], [⟨59/100, 100000⟩]⟩⟩ : MarketOrderBooks) 10).maxViableSize) := by
  have hedge : (compareMarkets
      (⟨"A", "qa", ⟨[], [⟨3/10, 100000⟩]⟩, ⟨[], [⟨69/100, 100000⟩]⟩⟩ : MarketOrderBooks)
      (⟨"B", "qb", ⟨[], [⟨2/5, 100000⟩]⟩, ⟨[], [⟨59/100, 100000⟩]⟩⟩ : MarketOrderBooks) 10).arbitrageEdge = 1/10 := by
    rw [compareMarkets_arbitrageEdge]
    norm_num [comparisonArb, detectApparentArbitrage, calculateExecutionPrice,
      selectedLevels, walkLevels, abs]
  have hmax : (compareMarkets
      (⟨"A", "qa", ⟨[], [⟨3/10, 100000⟩]⟩, ⟨[], [⟨69/100, 100000⟩]⟩⟩ : MarketOrderBooks)
      (⟨"B", "qb", ⟨[], [⟨2/5, 100000⟩]⟩, ⟨[], [⟨59/100, 100000⟩]⟩⟩ : MarketOrderBooks) 10).maxViableSize = 0 := by
    rw [compareMarkets_maxViableSize]
    have hfalse : (comparisonArb
        (⟨"A", "qa", ⟨[], [⟨3/10, 100000⟩]⟩, ⟨[], [⟨69/100, 100000⟩]⟩⟩ : MarketOrderBooks)
        (⟨"B", "qb", ⟨[], [⟨2/5, 100000⟩]⟩, ⟨[], [⟨59/100, 100000⟩]⟩⟩ : MarketOrderBooks) 10).hasArbitrage = false := by
      norm_num [comparisonArb, detectApparentArbitrage, calculateExecutionPrice,
        selectedLevels, walkLevels, abs]
    rw [hfalse]
    norm_num [findMaxViableArbSize]
  have hviable : viableEdgeAt
      (⟨"A", "qa", ⟨[], [⟨3/10, 100000⟩]⟩, ⟨[], [⟨69/100, 100000⟩]⟩⟩ : MarketOrderBooks)
      (⟨"B", "qb", ⟨[], [⟨2/5, 100000⟩]⟩, ⟨[], [⟨59/100, 100000⟩]⟩⟩ : MarketOrderBooks)
      (compareMarkets
        (⟨"A", "qa", ⟨[], [⟨3/10, 100000⟩]⟩, ⟨[], [⟨69/100, 100000⟩]⟩⟩ : MarketOrderBooks)
        (⟨"B", "qb", ⟨[], [⟨2/5, 100000⟩]⟩, ⟨[], [⟨59/100, 100000⟩]⟩⟩ : MarketOrderBooks) 10).arbitrageEdge 1 := by
    rw [hedge]
    norm_num [viableEdgeAt, calculateExecutionPrice, selectedLevels, walkLevels]
  refine ⟨by rw [hedge]; norm_num, hmax, hviable, ?_⟩
  intro hall
  have h1 := hall 1 (by norm_num) hviable
  rw [hmax] at h1
  omega

/-- C7 (amended): when `compareMarkets` flags apparent arbitrage,
`maxViableSize` is a size of at most 9999 found by the binary search
that, when nonzero, still has `arbitrageEdge·100` above the sum of the
two YES-leg slippage percents (it need not be the largest such size);
when no arbitrage is flagged — including the case of a positive
`arbitrageEdge` reported by the cross-market discrepancy branch —
`maxViableSize` is 0. -/
theorem C7_max_viable_size (marketA marketB : MarketOrderBooks) (tradeSize : ℚ) :
    ((compareMarkets marketA marketB tradeSize).apparentArbitrage = true →
      (compareMarkets marketA marketB tradeSize).maxViableSize ≤ 9999 ∧
        ((compareMarkets marketA marketB tradeSize).maxViableSize = 0 ∨
          viableEdgeAt marketA marketB
            (compareMarkets marketA marketB tradeSize).arbitrageEdge
            (compareMarkets marketA marketB tradeSize).maxViableSize)) ∧
      ((compareMarkets marketA marketB tradeSize).apparentArbitrage = false →
        (compareMarkets marketA marketB tradeSize).maxViableSize = 0) := by
  constructor
  · intro htrue
    rw [compareMarkets_apparentArbitrage] at htrue
    rw [compareMarkets_maxViableSize, compareMarkets_arbitrageEdge, if_pos htrue]
    have hpos : 0 < (comparisonArb marketA marketB tradeSize).arbitrageEdge :=
      detectApparentArbitrage_edge_pos _ _ _ _ htrue
    rw [abs_of_pos hpos]
    exact findMaxViableArbSize_spec marketA marketB _
  · intro hfalse
    rw [compareMarkets_apparentArbitrage] at hfalse
    rw [compareMarkets_maxViableSize, if_neg (by rw [hfalse]; simp)]
    unfold findMaxViableArbSize
    rw [if_pos (le_refl (0:ℚ))]

/-- Witness for C7 (amended): at the counterexample markets no
arbitrage is flagged, and the theorem yields `maxViableSize = 0`. -/
theorem C7_max_viable_size_witness :
    (compareMarkets
        (⟨"A", "qa", ⟨[], [⟨3/10, 100000⟩]⟩, ⟨[], [⟨69/100, 100000⟩]⟩⟩ : MarketOrderBooks)
        (⟨"B", "qb", ⟨[], [⟨2/5, 100000⟩]⟩, ⟨[], [⟨59/100, 100000⟩]⟩⟩ : MarketOrderBooks) 10).maxViableSize = 0 :=
  (C7_max_viable_size
      (⟨"A", "qa", ⟨[], [⟨3/10, 100000⟩]⟩, ⟨[], [⟨69/100, 100000⟩]⟩⟩ : MarketOrderBooks)
      (⟨"B", "qb", ⟨[], [⟨2/5, 100000⟩]⟩, ⟨[], [⟨59/100, 100000⟩]⟩⟩ : MarketOrderBooks) 10).2
    (by rw [compareMarkets_apparentArbitrage]
        norm_num [comparisonArb, detectApparentArbitrage, calculateExecutionPrice,
          selectedLevels, walkLevels, abs])

/-- Helper: an upper bound for the left fold of `max` over a list. -/
theorem foldl_max_le (c : ℚ) (xs : List ℚ) :
    ∀ acc : ℚ, acc ≤ c → (∀ y ∈ xs, y ≤ c) → xs.foldl max acc ≤ c := by
  induction xs with
  | nil => intro acc hacc _; simpa using hacc
  | cons y ys ih =>
    intro acc hacc hall
    simp only [List.foldl_cons]
    exact ih (max acc y) (max_le hacc (hall y (by simp)))
      (fun z hz => hall z (List.mem_cons_of_mem _ hz))

/-- Helper: a lower bound for the left fold of `min` over a list. -/
theorem le_foldl_min (c : ℚ) (xs : List ℚ) :
    ∀ acc : ℚ, c ≤ acc → (∀ y ∈ xs, c ≤ y) → c ≤ xs.foldl min acc := by
  induction xs with
  | nil => intro acc hacc _; simpa using hacc
  | cons y ys ih =>
    intro acc hacc hall
    simp only [List.foldl_cons]
    exact ih (min acc y) (le_min hacc (hall y (by simp)))
      (fun z hz => hall z (List.mem_cons_of_mem _ hz))

/-- `listMax` of a non-empty list is bounded by any common upper
bound. -/
theorem listMax_le (x : ℚ) (xs : List ℚ) (c : ℚ)
    (h : ∀ y ∈ x :: xs, y ≤ c) : listMax (x :: xs) ≤ c :=
  foldl_max_le c xs x (h x (by simp)) (fun y hy => h y (List.mem_cons_of_mem _ hy))

/-- `listMin` of a non-empty list dominates any common lower bound. -/
theorem le_listMin (x : ℚ) (xs : List ℚ) (c : ℚ)
    (h : ∀ y ∈ x :: xs, c ≤ y) : c ≤ listMin (x :: xs) :=
  le_foldl_min c xs x (h x (by simp)) (fun y hy => h y (List.mem_cons_of_mem _ hy))

/-- `addToGroups` preserves a pointwise property of all grouped
markets. -/
theorem addToGroups_forall (P : NormalizedMarket → Prop) (slug : String)
    (m : NormalizedMarket) (groups : List MarketGroup)
    (hg : ∀ g ∈ groups, ∀ x ∈ g.markets, P x) (hm : P m) :
    ∀ g ∈ addToGroups slug m groups, ∀ x ∈ g.markets, P x := by
  induction groups with
  | nil =>
    intro g hgmem x hx
    simp only [addToGroups, List.mem_singleton] at hgmem
    subst hgmem
    simp only [List.mem_singleton] at hx
    subst hx
    exact hm
  | cons g0 gs ih =>
    intro g hgmem x hx
    simp only [addToGroups] at hgmem
    split_ifs at hgmem with hslug
    · rcases List.mem_cons.mp hgmem with hgeq | hgin
      · subst hgeq
        simp only [List.mem_append, List.mem_singleton] at hx
        rcases hx with hx0 | hxm
        · exact hg g0 (by simp) x hx0
        · subst hxm; exact hm
      · exact hg g (List.mem_cons_of_mem _ hgin) x hx
    · rcases List.mem_cons.mp hgmem with hgeq | hgin
      · subst hgeq
        exact hg g (by simp) x hx
      · exact ih (fun g' hg' => hg g' (List.mem_cons_of_mem _ hg')) g hgin x hx

/-- The grouping fold preserves a pointwise property. -/
theorem groupFold_forall (P : NormalizedMarket → Prop) (l : List NormalizedMarket) :
    ∀ init : List MarketGroup, (∀ g ∈ init, ∀ x ∈ g.markets, P x) →
      (∀ m ∈ l, P m) →
      ∀ g ∈ l.foldl (fun gs m => addToGroups (generateSlug m.question) m gs) init,
        ∀ x ∈ g.markets, P x := by
  induction l with
  | nil =>
    intro init hinit _
    simpa using hinit
  | cons m ms ih =>
    intro init hinit hl
    simp only [List.foldl_cons]
    exact ih _ (addToGroups_forall P _ m init hinit (hl m (by simp)))
      (fun y hy => hl y (List.mem_cons_of_mem _ hy))

/-- Every market of every group produced by `groupSimilarMarkets` comes
from the input list. -/
theorem groupSimilarMarkets_sub (markets : List NormalizedMarket) :
    ∀ g ∈ groupSimilarMarkets markets, ∀ x ∈ g.markets, x ∈ markets := by
  intro g hg
  have hg' := List.mem_of_mem_filter hg
  exact groupFold_forall (fun x => x ∈ markets) markets [] (by simp)
    (fun m hm => hm) g hg'

/-- Inversion of `analyzeGroup`: a returned result records the group
spread (at least the minimum threshold) and one quote per grouped
market. -/
theorem analyzeGroup_some {News : Type} (news : String → List News)
    (group : MarketGroup) (r : DiscrepancyResult News)
    (h : analyzeGroup news group = some r) :
    r.maxSpread = listMax (group.markets.map NormalizedMarket.yesProbability) -
        listMin (group.markets.map NormalizedMarket.yesProbability) ∧
      MIN_SPREAD_THRESHOLD ≤ r.maxSpread ∧
      r.markets.length = group.markets.length := by
  simp only [analyzeGroup] at h
  split_ifs at h with hlt
  push_neg at hlt
  obtain rfl := Option.some_inj.mp h
  refine ⟨rfl, hlt, ?_⟩
  simp

/-- C8: for inputs whose `yesProbability` values lie in `[0,1]`, every
returned `DiscrepancyResult` has `maxSpread ≥ 0.03` and
`maxSpread ∈ [0,1]`, comes from a group of at least 2 markets, and the
returned sequence is sorted descending by `maxSpread`. -/
theorem C8_detect_discrepancies {News : Type} (news : String → List News)
    (markets : List NormalizedMarket)
    (hprob : ∀ m ∈ markets, 0 ≤ m.yesProbability ∧ m.yesProbability ≤ 1) :
    (∀ r ∈ detectDiscrepancies news markets,
        3/100 ≤ r.maxSpread ∧ 0 ≤ r.maxSpread ∧ r.maxSpread ≤ 1 ∧
          2 ≤ r.markets.length) ∧
      (detectDiscrepancies news markets).Pairwise
        (fun a b => b.maxSpread ≤ a.maxSpread) := by
  constructor
  · intro r hr
    simp only [detectDiscrepancies, List.mem_mergeSort] at hr
    obtain ⟨g, hgmem, hf⟩ := List.mem_filterMap.mp hr
    by_cases hlen : g.markets.length < 2
    · simp [hlen] at hf
    · rcases han : analyzeGroup news g with _ | analysis
      · simp [hlen, han] at hf
      · simp only [if_neg hlen, han] at hf
        by_cases hmin : MIN_SPREAD_THRESHOLD ≤ analysis.maxSpread
        · simp only [if_pos hmin, Option.some_inj] at hf
          obtain rfl := hf.symm
          obtain ⟨hspread, hminr, hlenr⟩ := analyzeGroup_some news g r han
          have hsub := groupSimilarMarkets_sub markets g hgmem
          have hlen2 : 2 ≤ g.markets.length := by omega
          rcases hms : g.markets with _ | ⟨m0, ms⟩
          · rw [hms] at hlen2; simp at hlen2
          · have hprices : ∀ p ∈ (m0 :: ms).map NormalizedMarket.yesProbability,
                0 ≤ p ∧ p ≤ 1 := by
              intro p hp
              obtain ⟨y, hy, rfl⟩ := List.mem_map.mp hp
              exact hprob y (hsub y (hms ▸ hy))
            have hmax1 : listMax ((m0 :: ms).map NormalizedMarket.yesProbability) ≤ 1 := by
              rw [List.map_cons]
              exact listMax_le _ _ 1
                (fun y hy => (hprices y (by rw [List.map_cons]; exact hy)).2)
            have hmin0 : 0 ≤ listMin ((m0 :: ms).map NormalizedMarket.yesProbability) := by
              rw [List.map_cons]
              exact le_listMin _ _ 0
                (fun y hy => (hprices y (by rw [List.map_cons]; exact hy)).1)
            have hminr' : (3:ℚ)/100 ≤ r.maxSpread := by
              simpa [MIN_SPREAD_THRESHOLD] using hminr
            refine ⟨hminr', by linarith, ?_, ?_⟩
            · rw [hspread, hms]
              linarith
            · rw [hlenr, hms]
              rw [hms] at hlen2
              exact hlen2
        · simp [hmin] at hf
  · simp only [detectDiscrepancies]
    have hs := @List.sorted_mergeSort (DiscrepancyResult News)
      (fun a b => decide (b.maxSpread ≤ a.maxSpread))
      (fun a b c h1 h2 => by
        simp only [decide_eq_true_eq] at h1 h2 ⊢
        exact le_trans h2 h1)
      (fun a b => by
        simp only [Bool.or_eq_true, decide_eq_true_eq]
        exact le_total _ _)
      ((groupSimilarMarkets markets).filterMap (fun group =>
        if group.markets.length < 2 then none
        else
          match analyzeGroup news group with
          | none => none
          | some analysis =>
            if MIN_SPREAD_THRESHOLD ≤ analysis.maxSpread then some analysis else none))
    exact hs.imp (fun h => of_decide_eq_true h)

/-- Witness for C8: two markets on the same question quoted at 0.60 and
0.40. -/
theorem C8_detect_discrepancies_witness :
    (∀ r ∈ detectDiscrepancies (fun _ => ([] : List Unit))
        [⟨"id1", .POLYMARKET, "Will the example event happen", "Politics", 3/5, 2/5, none, none⟩,
          ⟨"id2", .KALSHI, "Will the example event happen", "Politics", 2/5, 3/5, none, none⟩],
        3/100 ≤ r.maxSpread ∧ 0 ≤ r.maxSpread ∧ r.maxSpread ≤ 1 ∧
          2 ≤ r.markets.length) ∧
      (detectDiscrepancies (fun _ => ([] : List Unit))
        [⟨"id1", .POLYMARKET, "Will the example event happen", "Politics", 3/5, 2/5, none, none⟩,
          ⟨"id2", .KALSHI, "Will the example event happen", "Politics", 2/5, 3/5, none, none⟩]).Pairwise
        (fun a b => b.maxSpread ≤ a.maxSpread) :=
  C8_detect_discrepancies (fun _ => ([] : List Unit))
    [⟨"id1", .POLYMARKET, "Will the example event happen", "Politics", 3/5, 2/5, none, none⟩,
      ⟨"id2", .KALSHI, "Will the example event happen", "Politics", 2/5, 3/5, none, none⟩]
    (by norm_num [List.forall_mem_cons])

end Arbiter
